import Mathlib

/-!
Verification of the incremental, checkpointed, rate-limited harvesting engine
of src/lpy/src/lpy/c3metrics (GithubMetrics, JiraMetrics, C3CommunityMetrics).

The definitions below are a shallow embedding of the Python source:
* `processItem`, `processPage`, `runPages` embed the per-item and paging loop
  of `GithubPR._runQueryAPI` (GithubPR.py lines 246-306);
* `processOpenPR` embeds `GithubPR._processOpenPR` over a fixed item universe;
* `reconcilePullNumbers` embeds `GithubPR._reconcilePullNumbers`;
* `readPullsLastRecorded` embeds `GithubPR._readPullsLastRecorded`;
* `repeatQueryGh` embeds `GithubBase._repeatQuery`, with wall-clock time passed
  explicitly and `time.sleep` modelled as advancing the clock;
* `jiraIsRateLimit` embeds `JiraBase._isRateLimit`;
* `c3RepeatQuery` embeds `C3CommunityBase._repeatQuery`;
* `jiraObjectsIter` embeds one iteration of `JiraTicketComment._getObjects`;
* `githubPageIter` / `githubRunLoop` embed one iteration / the whole retry loop
  of `GithubPR._runQueryAPI` with explicit HTTP attempt outcomes;
* `applyFsOps` / `writePullsProcessedOps` embed the file-system effect of
  `GithubBase._writePullsProcessed`.

Python exceptions (KeyError, ValueError, json decode errors, retry loops that
cannot make progress) are modelled with `Except String`.
-/

set_option maxHeartbeats 1000000

namespace C3Metrics

/-- A raw pull-request item as consumed by `GithubPR._processPR`: its natural
id (`pr['number']`), its author login (`pr['user']['login']`, already
lowercased), and the `closed_at` / `merged_at` fields (None ↦ `none`). -/
structure PR where
  number : Nat
  author : String
  closedAt : Option String
  mergedAt : Option String
deriving DecidableEq

/-- `GithubPR._processPR`: a PR with neither `closed_at` nor `merged_at` is
open (the function returns False for it). -/
def prIsOpen (pr : PR) : Bool := pr.closedAt.isNone && pr.mergedAt.isNone

/-- `GithubPR._processPR`: a PR with `merged_at` set falls into the merged
branch, which writes an output row. -/
def prIsMerged (pr : PR) : Bool := pr.mergedAt.isSome

/-- One entry of `self._pullsProcessed`: `{'page': int, 'pullNumber': int,
'openPR': [int]}`. -/
structure RepoProgress where
  page : Nat
  pullNumber : Nat
  openPR : List Nat
deriving DecidableEq

/-- The fresh entry `{'page': 1, 'pullNumber': 0, 'openPR': []}` created by
`GithubPR._reconcilePullNumbers` for a repo with no recorded progress. -/
def initProg : RepoProgress := { page := 1, pullNumber := 0, openPR := [] }

/-- The in-memory effect of one run over one repo: the progress entry, the
pull numbers of rows appended to the output csv (`self._f.writerow`), and the
cursor values persisted by successive `_writePullsProcessed` calls. -/
structure ScanState where
  prog : RepoProgress
  emitted : List Nat
  saves : List Nat
deriving DecidableEq

def freshScan : ScanState := { prog := initProg, emitted := [], saves := [] }

/-- `author in self._solutionEngineers`. -/
def rosterHas (engineers : List String) (a : String) : Bool := engineers.contains a

/-- Body of `for pr in responseJson` in `GithubPR._runQueryAPI` (lines
287-302): skip when `pr['number'] <= pullsProcessed[repo]['pullNumber']`;
otherwise, when the author is a tracked engineer, `_processPR` emits a row for
a merged PR and an open PR is appended to `openPR`; in all non-skipped cases
the cursor is set to the item's number and the checkpoint is written. -/
def processItem (engineers : List String) (pageCount : Nat) (s : ScanState) (pr : PR) :
    ScanState :=
  if pr.number ≤ s.prog.pullNumber then s
  else
    { prog :=
        { page := pageCount,
          pullNumber := pr.number,
          openPR :=
            if rosterHas engineers pr.author && prIsOpen pr then
              s.prog.openPR ++ [pr.number]
            else s.prog.openPR },
      emitted :=
        if rosterHas engineers pr.author && prIsMerged pr then
          s.emitted ++ [pr.number]
        else s.emitted,
      saves := s.saves ++ [pr.number] }

/-- Processing of one page of results in `GithubPR._runQueryAPI`. -/
def processPage (engineers : List String) (pageCount : Nat) (s : ScanState)
    (items : List PR) : ScanState :=
  items.foldl (processItem engineers pageCount) s

/-- The `_writePullsProcessed` call made when an empty page ends the paging
loop (GithubPR.py lines 283-285): it persists the current cursor again. -/
def endSave (s : ScanState) : ScanState := { s with saves := s.saves ++ [s.prog.pullNumber] }

/-- The paging loop of `GithubPR._runQueryAPI` on its success path: process
pages in order, `pageCount` increasing by one per page, stopping (with a final
checkpoint write) at the first empty page.  The argument list holds the pages
the provider returns starting from the requested page; the page after the end
of the list is empty. -/
def runPages (engineers : List String) : List (List PR) → Nat → ScanState → ScanState
  | [], _, s => endSave s
  | pg :: rest, p, s =>
    if pg.isEmpty then endSave s
    else runPages engineers rest (p + 1) (processPage engineers p s pg)

/-- Pages returned by the provider when paging starts at page `p` (pages are
1-indexed by `params['page']`; the pagination is stable across runs). -/
def pagesFrom (univ : List (List PR)) (p : Nat) : List (List PR) := univ.drop (p - 1)

/-- `GET /repos/owner/repo/pulls/<n>` over the fixed universe of items: the
response for the pull with number `n`. -/
def findPR (univ : List (List PR)) (n : Nat) : Option PR :=
  univ.flatten.find? (fun pr => pr.number == n)

/-- One element of the `_processOpenPR` drain (GithubPR.py lines 214-244):
re-fetch the pull by number; `_processPR` re-appends it when still open and
writes a row when merged (looking the author up in `_solutionEngineers`, a
KeyError when absent).  A pull for which the provider never answers 200 keeps
the inner `while True` looping forever, modelled as an error. -/
def drainOne (engineers : List String) (univ : List (List PR)) (s : ScanState) (n : Nat) :
    Except String ScanState :=
  match findPR univ n with
  | none => Except.error "no 200 response for this pull: the retry loop never ends"
  | some pr =>
    if prIsOpen pr then
      Except.ok { s with prog := { s.prog with openPR := s.prog.openPR ++ [n] } }
    else if prIsMerged pr then
      if rosterHas engineers pr.author then
        Except.ok { s with emitted := s.emitted ++ [n] }
      else Except.error "KeyError: author not in solutionEngineers"
    else Except.ok s

/-- `GithubPR._processOpenPR`: pop every id currently in `openPR` (the list is
drained from the front, `itemCount` is its length at entry) and process each;
still-open pulls are appended back. -/
def processOpenPR (engineers : List String) (univ : List (List PR)) (s : ScanState) :
    Except String ScanState :=
  s.prog.openPR.foldlM (drainOne engineers univ)
    { s with prog := { s.prog with openPR := [] } }

/-- `GithubPR._runQueryAPI` for one repo over a fixed provider universe: drain
`openPR` first, then page from the recorded page number. -/
def runQueryAPI (engineers : List String) (univ : List (List PR)) (s : ScanState) :
    Except String ScanState :=
  (processOpenPR engineers univ s).map fun s' =>
    runPages engineers (pagesFrom univ s'.prog.page) s'.prog.page s'

/-- Lookup in the `self._pullsProcessed` dict (association list keyed by repo
name). -/
def lookupRepo (m : List (String × RepoProgress)) (r : String) : Option RepoProgress :=
  (m.find? (fun e => e.1 == r)).map (·.2)

/-- Python dict assignment `self._pullsProcessed[repo] = v`: replace the entry
when present, append it otherwise. -/
def setRepo (m : List (String × RepoProgress)) (r : String) (v : RepoProgress) :
    List (String × RepoProgress) :=
  if (m.find? (fun e => e.1 == r)).isSome then
    m.map (fun e => if e.1 == r then (r, v) else e)
  else m ++ [(r, v)]

/-- `GithubPR._reconcilePullNumbers` (GithubPR.py lines 56-80).  `repos` is
`self._commercialRepoList + self._federalRepoList`, `processed` the loaded
`_pullsProcessed` checkpoint, `lastRecorded` the watermark map read from the
output csv.  If `lastRecorded` is empty, every roster repo is reset to
`{'page': 1, 'pullNumber': 0, 'openPR': []}`; otherwise only roster repos
missing from the checkpoint are initialised.  Then, for each repo appearing in
`lastRecorded`, the cursor becomes the max of checkpoint cursor and watermark
— a KeyError when that repo has no `_pullsProcessed` entry. -/
def reconcilePullNumbers (repos : List String) (processed : List (String × RepoProgress))
    (lastRecorded : List (String × Nat)) : Except String (List (String × RepoProgress)) :=
  let processed1 :=
    if lastRecorded.isEmpty then
      repos.foldl (fun m r => setRepo m r initProg) processed
    else
      repos.foldl (fun m r => if (lookupRepo m r).isSome then m else setRepo m r initProg)
        processed
  lastRecorded.foldlM
    (fun m e =>
      match lookupRepo m e.1 with
      | none => Except.error ("KeyError: " ++ e.1)
      | some prog =>
        Except.ok (setRepo m e.1 { prog with pullNumber := max prog.pullNumber e.2 }))
    processed1

/-- `GithubPR._readPullsLastRecorded`: fold the (Repository, PullNumber) pairs
of the csv rows into a map from repo to the maximum recorded pull number. -/
def readPullsLastRecorded (rows : List (String × Nat)) : List (String × Nat) :=
  rows.foldl
    (fun m e =>
      if (m.find? (fun x => x.1 == e.1)).isSome then
        m.map (fun x => if x.1 == e.1 then (x.1, max x.2 e.2) else x)
      else m ++ [e])
    []

/-- The (Repository, PullNumber) csv rows produced by emitting the given pull
numbers for repo `r`. -/
def csvRowsOf (r : String) (emitted : List Nat) : List (String × Nat) :=
  emitted.map (fun n => (r, n))

/-- Pass-1 state of a fresh harvest of one repo killed at an item boundary:
pages `P` (numbered from 1) fully processed, then the prefix `a` of the next
page.  At an item boundary the in-memory state coincides with the persisted
one (csv row and checkpoint writes for the last item are both complete). -/
def foldPages (engineers : List String) : List (List PR) → Nat → ScanState → ScanState
  | [], _, s => s
  | pg :: rest, p, s => foldPages engineers rest (p + 1) (processPage engineers p s pg)

def killState (engineers : List String) (P : List (List PR)) (a : List PR) : ScanState :=
  processPage engineers (P.length + 1) (foldPages engineers P 1 freshScan) a

/-- One complete run of the pull-request harvester on repo `r` from on-disk
state: `_readPullsLastRecorded` over the csv rows, `_reconcilePullNumbers`,
then `_runQueryAPI`. -/
def harvestRun (engineers repos : List String) (univ : List (List PR)) (r : String)
    (processed : List (String × RepoProgress)) (csvRows : List (String × Nat)) :
    Except String ScanState :=
  match reconcilePullNumbers repos processed (readPullsLastRecorded csvRows) with
  | Except.error e => Except.error e
  | Except.ok m =>
    match lookupRepo m r with
    | none => Except.error ("KeyError: " ++ r)
    | some prog => runQueryAPI engineers univ { prog := prog, emitted := [], saves := [] }

/-! Characterisation helpers (used only to state theorems). -/

/-- Pull numbers of the merged PRs authored by tracked engineers in a list of
items: exactly the rows a scan of those items emits. -/
def mergedRosterNums (engineers : List String) (xs : List PR) : List Nat :=
  (xs.filter (fun pr => rosterHas engineers pr.author && prIsMerged pr)).map (·.number)

/-- Pull numbers of the open PRs authored by tracked engineers in a list of
items. -/
def openRosterNums (engineers : List String) (xs : List PR) : List Nat :=
  (xs.filter (fun pr => rosterHas engineers pr.author && prIsOpen pr)).map (·.number)

def numsOf (xs : List PR) : List Nat := xs.map (·.number)

/-! HTTP / rate-limit layer. -/

/-- One decimal digit. -/
def digitToNat? (c : Char) : Option Nat :=
  if c == '0' then some 0 else if c == '1' then some 1 else if c == '2' then some 2
  else if c == '3' then some 3 else if c == '4' then some 4 else if c == '5' then some 5
  else if c == '6' then some 6 else if c == '7' then some 7 else if c == '8' then some 8
  else if c == '9' then some 9 else none

def parseNatAux : List Char → Nat → Option Nat
  | [], acc => some acc
  | c :: cs, acc =>
    match digitToNat? c with
    | none => none
    | some d => parseNatAux cs (acc * 10 + d)

/-- Python `int(s)` for a (non-negative, already-stripped) header value:
`none` models the ValueError raised on a malformed value. -/
def parseNat? (s : String) : Option Nat :=
  match s.toList with
  | [] => none
  | l => parseNatAux l 0

/-- `response.headers[k]` as an optional lookup. -/
def lookupHeader (headers : List (String × String)) (k : String) : Option String :=
  (headers.find? (fun h => h.1 == k)).map (·.2)

/-- `GithubBase._repeatQuery` (GithubBase.py lines 144-164) with the wall
clock passed explicitly; the result is (return value, clock after any sleep).
On a 403 the `X-RateLimit-Remaining` header is read (KeyError when missing);
when it is the string "0" the reset header is read and, if the reset time is
in the future, the process sleeps exactly `resetTime - currTime` seconds.  In
every 403 case the function returns True. -/
def repeatQueryGh (status : Nat) (headers : List (String × String)) (now : Nat) :
    Except String (Bool × Nat) :=
  if status == 403 then
    match lookupHeader headers "X-RateLimit-Remaining" with
    | none => Except.error "KeyError: X-RateLimit-Remaining"
    | some remaining =>
      if remaining == "0" then
        match lookupHeader headers "X-RateLimit-Reset" with
        | none => Except.error "KeyError: X-RateLimit-Reset"
        | some resetStr =>
          match parseNat? resetStr with
          | none => Except.error "ValueError: X-RateLimit-Reset"
          | some resetTime =>
            if now < resetTime then Except.ok (true, now + (resetTime - now))
            else Except.ok (true, now)
      else Except.ok (true, now)
  else Except.ok (false, now)

/-- Outcome of one `requests.get` attempt inside the paging loop. -/
inductive GhAttempt
  | transportError
  | resp (status : Nat) (headers : List (String × String)) (items : List PR)
deriving DecidableEq

/-- Loop-local state of `GithubPR._runQueryAPI`: the page about to be
requested and the scan state. -/
structure GhIterSt where
  pageCount : Nat
  scan : ScanState
deriving DecidableEq

inductive GhIterOut
  | again (st : GhIterSt) (clock : Nat) (logLines : Nat)
  | done (st : GhIterSt) (clock : Nat) (logLines : Nat)
deriving DecidableEq

/-- One iteration of the `while True` body of `GithubPR._runQueryAPI` (lines
256-304).  A transport exception logs two error lines and `continue`s with the
same `pageCount` and no sleep.  A response first goes through
`_repeatQuery` (which may sleep); on True the loop `continue`s unchanged; a
non-200 status also `continue`s unchanged; an empty 200 page saves and breaks;
a non-empty 200 page is processed and `pageCount` advances. -/
def githubPageIter (engineers : List String) (st : GhIterSt) (a : GhAttempt) (now : Nat) :
    Except String GhIterOut :=
  match a with
  | GhAttempt.transportError => Except.ok (GhIterOut.again st now 2)
  | GhAttempt.resp status headers items =>
    match repeatQueryGh status headers now with
    | Except.error e => Except.error e
    | Except.ok (true, clock) => Except.ok (GhIterOut.again st clock 2)
    | Except.ok (false, _) =>
      if status != 200 then Except.ok (GhIterOut.again st now 2)
      else if items.isEmpty then
        Except.ok (GhIterOut.done { st with scan := endSave st.scan } now 1)
      else
        Except.ok (GhIterOut.again
          { pageCount := st.pageCount + 1,
            scan := processPage engineers st.pageCount st.scan items } now 1)

/-- The retry loop of `GithubPR._runQueryAPI` driven by an oracle giving the
outcome of the k-th HTTP attempt, with fuel; `Except.ok none` means the fuel
ran out with the loop still running. -/
def githubRunLoop (engineers : List String) (oracle : Nat → GhAttempt) :
    Nat → GhIterSt → Nat → Nat → Except String (Option (GhIterSt × Nat))
  | 0, _, _, _ => Except.ok none
  | fuel + 1, st, now, k =>
    match githubPageIter engineers st (oracle k) now with
    | Except.error e => Except.error e
    | Except.ok (GhIterOut.done st2 clock _) => Except.ok (some (st2, clock))
    | Except.ok (GhIterOut.again st2 clock _) =>
      githubRunLoop engineers oracle fuel st2 clock (k + 1)

/-- `JiraBase._isRateLimit` (JiraBase.py lines 93-101): a 429 reads the
`Retry-After` header (KeyError when missing, ValueError when not an integer)
and sleeps that many seconds, returning True; any other status returns False
without sleeping. -/
def jiraIsRateLimit (status : Nat) (headers : List (String × String)) (now : Nat) :
    Except String (Bool × Nat) :=
  if status == 429 then
    match lookupHeader headers "Retry-After" with
    | none => Except.error "KeyError: Retry-After"
    | some v =>
      match parseNat? v with
      | none => Except.error "ValueError: Retry-After"
      | some w => Except.ok (true, now + w)
  else Except.ok (false, now)

/-- Loop-local state of `JiraTicketComment._getObjects`: the next request is
issued with `params['startAt'] = startAt + maxResults`. -/
structure JiraScanSt where
  startAt : Nat
  maxResults : Nat
  total : Nat
deriving DecidableEq

inductive JiraAttempt
  | transportError
  | resp (status : Nat) (headers : List (String × String))
      (maxResults startAt total : Nat)
deriving DecidableEq

inductive JiraIterOut
  | again (st : JiraScanSt) (clock : Nat) (logLines : Nat)
  | proceed (st : JiraScanSt) (clock : Nat)
deriving DecidableEq

/-- One iteration of the `while` body of `JiraTicketComment._getObjects`
(lines 36-66).  On a transport exception the code restores `startAt` to
`prevStart` and logs two error lines, so the loop state is unchanged and no
sleep happens; the next request is built from the same state and is therefore
the same request.  A rate-limited response likewise restores `startAt` (after
`_isRateLimit` slept).  Otherwise `maxResults`, `startAt` and `total` are
taken from the response body. -/
def jiraObjectsIter (st : JiraScanSt) (a : JiraAttempt) (now : Nat) :
    Except String JiraIterOut :=
  match a with
  | JiraAttempt.transportError => Except.ok (JiraIterOut.again st now 2)
  | JiraAttempt.resp status headers mr sa tot =>
    match jiraIsRateLimit status headers now with
    | Except.error e => Except.error e
    | Except.ok (true, clock) => Except.ok (JiraIterOut.again st clock 0)
    | Except.ok (false, _) =>
      Except.ok (JiraIterOut.proceed { startAt := sa, maxResults := mr, total := tot } now)

/-- Substring test, modelling Python's `'Slow down' in responseJson`. -/
def hasSubstringAux (needle : List Char) : List Char → Bool
  | [] => needle.isEmpty
  | c :: rest => needle.isPrefixOf (c :: rest) || hasSubstringAux needle rest

/-- `C3CommunityBase._repeatQuery` (C3CommunityBase.py lines 92-111): a 429
whose plain-text body contains 'Slow down' waits a fixed default of 5 seconds;
otherwise the body is parsed as json and `extras.wait_seconds` (here
`jsonWaitSeconds`, `none` when the body is not such a json document, in which
case `response.json()` or the key lookup raises) gives the wait. -/
def c3RepeatQuery (status : Nat) (bodyText : String) (jsonWaitSeconds : Option Nat)
    (now : Nat) : Except String (Bool × Nat) :=
  if status == 429 then
    if hasSubstringAux "Slow down".toList bodyText.toList then Except.ok (true, now + 5)
    else
      match jsonWaitSeconds with
      | some w => Except.ok (true, now + w)
      | none => Except.error "JSONDecodeError or KeyError: extras.wait_seconds"
  else Except.ok (false, now)

/-! File-system model of checkpoint persistence. -/

/-- The on-disk state relevant to one save of the checkpoint document: the
checkpoint file's content and an optional temporary file. -/
structure DiskState where
  main : String
  temp : Option String
deriving DecidableEq

/-- Primitive file-system steps a save could take. -/
inductive FsOp
  | truncateMain
  | writeMain (s : String)
  | writeTemp (s : String)
  | renameTempToMain
deriving DecidableEq

def applyFsOp (d : DiskState) : FsOp → DiskState
  | FsOp.truncateMain => { d with main := "" }
  | FsOp.writeMain s => { d with main := s }
  | FsOp.writeTemp s => { d with temp := some s }
  | FsOp.renameTempToMain =>
    match d.temp with
    | some s => { main := s, temp := none }
    | none => d

def applyFsOps (d : DiskState) (ops : List FsOp) : DiskState := ops.foldl applyFsOp d

/-- File-system steps of `GithubBase._writePullsProcessed` (GithubBase.py
lines 189-192): `open(path, 'w')` truncates the checkpoint file in place, then
`json.dump` writes the new document.  No temporary file, no rename. -/
def writePullsProcessedOps (doc : String) : List FsOp :=
  [FsOp.truncateMain, FsOp.writeMain doc]

/-- Whether a modelled computation completed without raising an exception. -/
def exceptOk {α : Type} : Except String α → Bool
  | Except.ok _ => true
  | Except.error _ => false

/-! Association-list lemmas for `lookupRepo` / `setRepo`. -/

theorem lookupRepo_setRepo_ne (m : List (String × RepoProgress)) (x r : String)
    (v : RepoProgress) (h : x ≠ r) : lookupRepo (setRepo m x v) r = lookupRepo m r := by
  unfold setRepo lookupRepo
  by_cases hf : (m.find? (fun e => e.1 == x)).isSome = true
  · rw [if_pos hf, List.find?_map]
    simp only [Function.comp_def]
    have hp : (fun e : String × RepoProgress =>
        (if e.1 == x then (x, v) else e).1 == r) = fun e => e.1 == r := by
      funext e
      by_cases he : (e.1 == x) = true
      · have hex : e.1 = x := by simpa using he
        simp [he, hex, beq_eq_false_iff_ne, h]
      · simp [he]
    rw [hp]
    cases hfind : m.find? (fun e => e.1 == r) with
    | none => rfl
    | some e =>
      have hkey := List.find?_some hfind
      have hex : e.1 = r := by simpa using hkey
      have hne : e.1 ≠ x := by
        rw [hex]
        exact fun hc => h hc.symm
      simp [hne]
  · have h2 : ([(x, v)].find? (fun e : String × RepoProgress => e.1 == r)) = none := by
      simp [beq_eq_false_iff_ne, h]
    rw [if_neg hf, List.find?_append, h2, Option.or_none]

theorem lookupRepo_setRepo_self (m : List (String × RepoProgress)) (x : String)
    (v : RepoProgress) : lookupRepo (setRepo m x v) x = some v := by
  unfold setRepo lookupRepo
  by_cases hf : (m.find? (fun e => e.1 == x)).isSome = true
  · rw [if_pos hf, List.find?_map]
    simp only [Function.comp_def]
    have hp : (fun e : String × RepoProgress =>
        (if e.1 == x then (x, v) else e).1 == x) = fun e => e.1 == x := by
      funext e
      by_cases he : (e.1 == x) = true
      · simp [he]
      · simp [he]
    rw [hp]
    cases hfind : m.find? (fun e => e.1 == x) with
    | none => rw [hfind] at hf; simp at hf
    | some e =>
      have hkey := List.find?_some hfind
      simp at hkey
      simp [hkey]
  · have h1 : m.find? (fun e : String × RepoProgress => e.1 == x) = none := by
      cases hfind : m.find? (fun e : String × RepoProgress => e.1 == x) with
      | none => rfl
      | some e => rw [hfind] at hf; simp at hf
    rw [if_neg hf, List.find?_append, h1]
    simp

/-! Claim C5: atomicity of checkpoint saves. -/

/-- Claim C5 counterexample: `_writePullsProcessed` does not write to a
temporary location and rename; it truncates the checkpoint file in place.  A
crash after `open(path, 'w')` and before `json.dump` completes leaves an empty
file, which is neither the previous checkpoint document nor the new one. -/
theorem checkpoint_save_atomicity_counterexample :
    applyFsOps { main := "olddoc", temp := none }
        ((writePullsProcessedOps "newdoc").take 1) = { main := "", temp := none } ∧
    ("" : String) ≠ "olddoc" ∧ ("" : String) ≠ "newdoc" := by
  refine ⟨rfl, ?_, ?_⟩ <;> decide

/-- Claim C5 (amended): a save of the checkpoint document rewrites the file in
place — `open(path, 'w')` truncates it and `json.dump` then writes the new
document, with no temporary file and no rename — so a completed save leaves
the new document, but a crash between the truncation and the completed write
leaves an empty (corrupted) file rather than the previous valid document. -/
theorem checkpoint_save_truncates_in_place (old doc : String) :
    (applyFsOps { main := old, temp := none } (writePullsProcessedOps doc)).main = doc ∧
    (applyFsOps { main := old, temp := none }
        ((writePullsProcessedOps doc).take 1)).main = "" ∧
    FsOp.renameTempToMain ∉ writePullsProcessedOps doc ∧
    (∀ s, FsOp.writeTemp s ∉ writePullsProcessedOps doc) := by
  refine ⟨rfl, rfl, ?_, ?_⟩
  · simp [writePullsProcessedOps]
  · intro s
    simp [writePullsProcessedOps]

/-! Claim C8: default wait on unstructured throttling signals. -/

/-- Claim C8 counterexample: a Jira 429 response carrying no `Retry-After`
header (hence neither a reset timestamp nor a wait duration) does not make the
harvester wait a conservative default — `JiraBase._isRateLimit` raises a
KeyError reading the header, so no wait and no retry happen at all. -/
theorem throttling_default_wait_counterexample :
    jiraIsRateLimit 429 [] 100 = Except.error "KeyError: Retry-After" := rfl

/-- Claim C8 (amended): only the forum provider uses a fixed conservative
default wait: a C3Community 429 whose plain-text body contains 'Slow down'
(and therefore carries no structured wait) sleeps the fixed default of 5
seconds and retries; the issue-tracker harvester instead requires a
`Retry-After` header on a 429 and fails with a missing-key error when neither
signal is present. -/
theorem throttling_default_wait_forum_only (now now2 : Nat) :
    c3RepeatQuery 429 "Slow down" none now = Except.ok (true, now + 5) ∧
    jiraIsRateLimit 429 [] now2 = Except.error "KeyError: Retry-After" := by
  exact ⟨rfl, rfl⟩

/-! Claim C7: behaviour on transport-level failures. -/

/-- Claim C7 counterexample: on a transport failure (timeout, connection
reset) the pause before the retry is zero — the clock is unchanged — not an
exponential, capped pause: both `GithubPR._runQueryAPI` and
`JiraTicketComment._getObjects` log the exception and `continue` immediately
with no sleep call. -/
theorem transport_failure_no_backoff_counterexample :
    githubPageIter [] { pageCount := 4, scan := freshScan } GhAttempt.transportError 100 =
      Except.ok (GhIterOut.again { pageCount := 4, scan := freshScan } 100 2) ∧
    jiraObjectsIter { startAt := 0, maxResults := 50, total := 100 }
        JiraAttempt.transportError 100 =
      Except.ok (JiraIterOut.again { startAt := 0, maxResults := 50, total := 100 } 100 2) := by
  exact ⟨rfl, rfl⟩

/-- Claim C7 (amended): on every transport-level failure of a page request the
fetcher retries the same request indefinitely (loop state — page number,
startAt offset, cursor — unchanged, so the reissued request is identical, and
under permanently failing transport the loop never terminates), logs each
attempt (two error lines), and pauses not at all (the clock is unchanged)
rather than with an exponential capped pause. -/
theorem transport_failure_retries_same_request (engineers : List String)
    (st : GhIterSt) (st2 : JiraScanSt) (now now2 fuel k : Nat) :
    githubPageIter engineers st GhAttempt.transportError now =
      Except.ok (GhIterOut.again st now 2) ∧
    jiraObjectsIter st2 JiraAttempt.transportError now2 =
      Except.ok (JiraIterOut.again st2 now2 2) ∧
    githubRunLoop engineers (fun _ => GhAttempt.transportError) fuel st now k =
      Except.ok none := by
  refine ⟨rfl, rfl, ?_⟩
  induction fuel generalizing st now k with
  | zero => rfl
  | succ n ih => exact ih st now (k + 1)

/-! Claim C6: rate-limit compliance of the source-forge harvester. -/

/-- Claim C6 (confirmed): on a 403 whose `X-RateLimit-Remaining` header is "0"
and whose `X-RateLimit-Reset` header parses to `now + N`,
`GithubBase._repeatQuery` sleeps until the reset time, so the paging loop's
next request is issued at clock `now + N` (hence no earlier than `now + N`),
and the loop state — repo and `pageCount` — is unchanged, so that next request
is the same request that was throttled. -/
theorem rate_limit_wait_and_same_request (engineers : List String) (st : GhIterSt)
    (hdrs : List (String × String)) (items : List PR) (now N : Nat) (resetStr : String)
    (hrem : lookupHeader hdrs "X-RateLimit-Remaining" = some "0")
    (hreset : lookupHeader hdrs "X-RateLimit-Reset" = some resetStr)
    (hparse : parseNat? resetStr = some (now + N)) :
    githubPageIter engineers st (GhAttempt.resp 403 hdrs items) now =
      Except.ok (GhIterOut.again st (now + N) 2) := by
  have hrq : repeatQueryGh 403 hdrs now = Except.ok (true, now + N) := by
    simp only [repeatQueryGh, hrem, hreset, hparse, beq_self_eq_true, if_true]
    by_cases hN : now < now + N
    · rw [if_pos hN]
      congr 2
      omega
    · have hN0 : N = 0 := by omega
      subst hN0
      rw [if_neg hN]
      rfl
  simp only [githubPageIter, hrq]

/-- Witness for C6 at a concrete throttled response: remaining "0", reset
"105", clock 100, so the retry happens at clock 105 = 100 + 5 with the same
loop state. -/
theorem rate_limit_wait_and_same_request_witness :
    lookupHeader [("X-RateLimit-Remaining", "0"), ("X-RateLimit-Reset", "105")]
        "X-RateLimit-Remaining" = some "0" ∧
    lookupHeader [("X-RateLimit-Remaining", "0"), ("X-RateLimit-Reset", "105")]
        "X-RateLimit-Reset" = some "105" ∧
    parseNat? "105" = some (100 + 5) ∧
    githubPageIter [] { pageCount := 3, scan := freshScan }
        (GhAttempt.resp 403 [("X-RateLimit-Remaining", "0"), ("X-RateLimit-Reset", "105")] [])
        100 =
      Except.ok (GhIterOut.again { pageCount := 3, scan := freshScan } (100 + 5) 2) :=
  ⟨by decide, by decide, by decide,
    rate_limit_wait_and_same_request [] { pageCount := 3, scan := freshScan }
      [("X-RateLimit-Remaining", "0"), ("X-RateLimit-Reset", "105")] [] 100 5 "105"
      (by decide) (by decide) (by decide)⟩

/-! Claim C9: 403 with nonzero remaining quota. -/

/-- On a 403 whose `X-RateLimit-Remaining` value is not "0",
`GithubBase._repeatQuery` returns True without sleeping and the loop state is
unchanged. -/
theorem gh403_nonzero_remaining_iter (engineers : List String) (st : GhIterSt)
    (hdrs : List (String × String)) (items : List PR) (now : Nat) (v : String)
    (hv : lookupHeader hdrs "X-RateLimit-Remaining" = some v) (hv0 : v ≠ "0") :
    githubPageIter engineers st (GhAttempt.resp 403 hdrs items) now =
      Except.ok (GhIterOut.again st now 2) := by
  have hvb : (v == "0") = false := by rw [beq_eq_false_iff_ne]; exact hv0
  have hrq : repeatQueryGh 403 hdrs now = Except.ok (true, now) := by
    simp only [repeatQueryGh, hv, hvb, beq_self_eq_true, if_true, if_false]
    rfl
  simp only [githubPageIter, hrq]

/-- Claim C9 (confirmed): every 403 whose `X-RateLimit-Remaining` header value
is not the string "0" makes `_repeatQuery` return True without sleeping, so
the paging loop reissues the same request (same repo, same `pageCount`)
immediately with no delay (the clock is unchanged); under an oracle answering
every attempt with such a 403, the paging loop never terminates (it exhausts
any amount of fuel). -/
theorem nonzero_remaining_403_loops_forever (engineers : List String)
    (oracle : Nat → GhAttempt)
    (horacle : ∀ k, ∃ hdrs items v, oracle k = GhAttempt.resp 403 hdrs items ∧
      lookupHeader hdrs "X-RateLimit-Remaining" = some v ∧ v ≠ "0")
    (st : GhIterSt) (now : Nat) (hdrs : List (String × String)) (items : List PR)
    (v : String) (hv : lookupHeader hdrs "X-RateLimit-Remaining" = some v)
    (hv0 : v ≠ "0") :
    githubPageIter engineers st (GhAttempt.resp 403 hdrs items) now =
      Except.ok (GhIterOut.again st now 2) ∧
    ∀ fuel k, githubRunLoop engineers oracle fuel st now k = Except.ok none := by
  refine ⟨gh403_nonzero_remaining_iter engineers st hdrs items now v hv hv0, ?_⟩
  intro fuel
  induction fuel generalizing st now with
  | zero => intro k; rfl
  | succ n ih =>
    intro k
    obtain ⟨hdrs2, items2, v2, hor, hv2, hv02⟩ := horacle k
    have hiter := gh403_nonzero_remaining_iter engineers st hdrs2 items2 now v2 hv2 hv02
    show (match githubPageIter engineers st (oracle k) now with
      | Except.error e => Except.error e
      | Except.ok (GhIterOut.done st2 clock _) => Except.ok (some (st2, clock))
      | Except.ok (GhIterOut.again st2 clock _) =>
        githubRunLoop engineers oracle n st2 clock (k + 1)) = Except.ok none
    rw [hor, hiter]
    exact ih st now (k + 1)

/-- Witness for C9: remaining "42" at every attempt; one iteration leaves the
state and clock unchanged, and seven units of fuel are exhausted without
termination. -/
theorem nonzero_remaining_403_loops_forever_witness :
    lookupHeader [("X-RateLimit-Remaining", "42")] "X-RateLimit-Remaining" = some "42" ∧
    ("42" : String) ≠ "0" ∧
    githubPageIter [] { pageCount := 1, scan := freshScan }
        (GhAttempt.resp 403 [("X-RateLimit-Remaining", "42")] []) 0 =
      Except.ok (GhIterOut.again { pageCount := 1, scan := freshScan } 0 2) ∧
    githubRunLoop [] (fun _ => GhAttempt.resp 403 [("X-RateLimit-Remaining", "42")] []) 7
        { pageCount := 1, scan := freshScan } 0 0 = Except.ok none := by
  have h := nonzero_remaining_403_loops_forever []
    (fun _ => GhAttempt.resp 403 [("X-RateLimit-Remaining", "42")] [])
    (fun _ => ⟨[("X-RateLimit-Remaining", "42")], [], "42", rfl, by decide, by decide⟩)
    { pageCount := 1, scan := freshScan } 0 [("X-RateLimit-Remaining", "42")] [] "42"
    (by decide) (by decide)
  exact ⟨by decide, by decide, h.1, h.2 7 0⟩

/-! Claim C2: the reconciliation algorithm. -/

/-- Claim C2 counterexample: an entity that has no checkpoint entry but does
have rows in the output sink does not get effective cursor 0 —
`_reconcilePullNumbers` first initialises it to `{'page': 1, 'pullNumber': 0}`
and then raises its cursor to the sink watermark (here 9). -/
theorem reconcile_no_checkpoint_counterexample :
    reconcilePullNumbers ["repoA"] [] [("repoA", 9)] =
      Except.ok [("repoA", { page := 1, pullNumber := 9, openPR := [] })] ∧
    (9 : Nat) ≠ 0 := ⟨rfl, by decide⟩

/-- Claim C2 (amended): when the watermark map recovered from the sink is
nonempty, an entity with a checkpoint entry and a sink watermark gets
effective cursor `max(checkpoint.cursor, watermark)` with page and openPR
preserved (in particular checkpoint cursor 5 with watermark 9 yields 9); an
entity with no checkpoint entry gets page 1 and its cursor raised to its sink
watermark (not 0) when one exists; and when the sink yields no watermarks at
all, every roster entity is reset to page 1 / cursor 0, discarding its
checkpoint cursor. -/
theorem reconcile_effective_cursor (r : String) (p c w : Nat) (op : List Nat) :
    reconcilePullNumbers [r] [(r, { page := p, pullNumber := c, openPR := op })] [(r, w)] =
      Except.ok [(r, { page := p, pullNumber := max c w, openPR := op })] ∧
    reconcilePullNumbers [r] [] [(r, w)] =
      Except.ok [(r, { page := 1, pullNumber := w, openPR := [] })] ∧
    reconcilePullNumbers [r] [(r, { page := p, pullNumber := c, openPR := op })] [] =
      Except.ok [(r, initProg)] := by
  refine ⟨?_, ?_, ?_⟩
  · simp [reconcilePullNumbers, lookupRepo, setRepo, List.foldlM, Except.pure]
  · simp [reconcilePullNumbers, lookupRepo, setRepo, initProg, List.foldlM, Except.pure]
  · simp only [reconcilePullNumbers, lookupRepo, setRepo, initProg, List.foldlM]
    simp [beq_self_eq_true]
    rfl

/-! Claim C10: a stray csv repository aborts reconciliation. -/

/-- The roster-initialisation fold of `_reconcilePullNumbers` never creates an
entry for a repo outside the roster. -/
theorem lookupRepo_initFold_none (repos : List String) (m : List (String × RepoProgress))
    (x : String) (hx : x ∉ repos) (hm : lookupRepo m x = none) :
    lookupRepo
      (repos.foldl
        (fun m r => if (lookupRepo m r).isSome then m else setRepo m r initProg) m) x =
      none := by
  induction repos generalizing m with
  | nil => exact hm
  | cons r rest ih =>
    have hxr : r ≠ x := by
      intro hc
      exact hx (hc ▸ List.mem_cons_self r rest)
    simp only [List.foldl_cons]
    refine ih _ (fun hc => hx (List.mem_cons_of_mem _ hc)) ?_
    by_cases hs : (lookupRepo m r).isSome = true
    · rw [if_pos hs]; exact hm
    · rw [if_neg hs, lookupRepo_setRepo_ne m r x initProg hxr]; exact hm

/-- The watermark fold of `_reconcilePullNumbers` raises once it reaches an
entry whose repo has no `_pullsProcessed` entry (and its steps never create
new entries). -/
theorem reconcile_foldlM_error (x : String) (w : Nat) (entries : List (String × Nat)) :
    ∀ m : List (String × RepoProgress), lookupRepo m x = none → (x, w) ∈ entries →
      exceptOk
        (entries.foldlM
          (fun m e =>
            match lookupRepo m e.1 with
            | none => Except.error ("KeyError: " ++ e.1)
            | some prog =>
              Except.ok (setRepo m e.1 { prog with pullNumber := max prog.pullNumber e.2 }))
          m) = false := by
  induction entries with
  | nil =>
    intro m hm hmem
    simp at hmem
  | cons e rest ih =>
    intro m hm hmem
    rw [List.foldlM_cons]
    cases he : lookupRepo m e.1 with
    | none =>
      simp only [he]
      rfl
    | some prog =>
      have hex : e.1 ≠ x := by
        intro hc
        rw [hc, hm] at he
        cases he
      have hmem2 : (x, w) ∈ rest := by
        rcases List.mem_cons.mp hmem with h1 | h1
        · exact absurd (congrArg Prod.fst h1.symm) hex
        · exact h1
      simp only [he]
      have hnext : lookupRepo
          (setRepo m e.1 { prog with pullNumber := max prog.pullNumber e.2 }) x = none := by
        rw [lookupRepo_setRepo_ne m e.1 x _ hex]
        exact hm
      exact ih _ hnext hmem2

/-- Claim C10 (confirmed): if the output csv contains a row whose Repository
is neither in the roster (so reconciliation does not initialise it) nor in the
loaded checkpoint document, `_reconcilePullNumbers` raises a KeyError while
taking the max for that entity, aborting construction before any harvesting
starts. -/
theorem stray_csv_repo_aborts_reconciliation (repos : List String)
    (processed : List (String × RepoProgress)) (lastRecorded : List (String × Nat))
    (x : String) (w : Nat) (hmem : (x, w) ∈ lastRecorded) (hx : x ∉ repos)
    (hproc : lookupRepo processed x = none) :
    exceptOk (reconcilePullNumbers repos processed lastRecorded) = false := by
  have hne : lastRecorded.isEmpty = false := by
    cases lastRecorded with
    | nil => simp at hmem
    | cons e rest => rfl
  unfold reconcilePullNumbers
  rw [hne]
  simp only [Bool.false_eq_true, if_false]
  exact reconcile_foldlM_error x w lastRecorded _
    (lookupRepo_initFold_none repos processed x hx hproc) hmem

/-- Witness for C10: roster ["a"], checkpoint for "a" only, csv rows naming
"a" and the stray repo "zzz"; reconciliation fails. -/
theorem stray_csv_repo_aborts_reconciliation_witness :
    (("zzz", 9) ∈ [("a", 3), ("zzz", 9)] : Prop) ∧
    ("zzz" ∉ ["a"] : Prop) ∧
    lookupRepo [("a", initProg)] "zzz" = none ∧
    exceptOk
      (reconcilePullNumbers ["a"] [("a", initProg)] [("a", 3), ("zzz", 9)]) = false :=
  ⟨by decide, by decide, by decide,
    stray_csv_repo_aborts_reconciliation ["a"] [("a", initProg)] [("a", 3), ("zzz", 9)]
      "zzz" 9 (by decide) (by decide) (by decide)⟩

/-! Claim C3: open items and the cursor. -/

/-- Claim C3 counterexample: processing a page containing the open pull 2 by a
non-tracked author, the open pull 3 by a tracked engineer, and the merged pull
4 leaves `openPR = [3]` — pull 2 was never added — and the persisted cursor at
4, past the open item 3 (lines 300-301 of GithubPR.py update the cursor
unconditionally for every non-skipped item, and pull 3's own save already
wrote cursor 3, which the `<=` skip test treats as processed). -/
theorem open_item_cursor_counterexample :
    processPage ["al"] 1 freshScan
      [{ number := 2, author := "zed", closedAt := none, mergedAt := none },
       { number := 3, author := "al", closedAt := none, mergedAt := none },
       { number := 4, author := "al", closedAt := some "2023-01-01",
         mergedAt := some "2023-01-02" }] =
      { prog := { page := 1, pullNumber := 4, openPR := [3] },
        emitted := [4], saves := [2, 3, 4] } ∧
    (3 : Nat) < 4 ∧ (2 : Nat) ∉ ([3] : List Nat) := by decide

/-! Claim C4: cursor monotonicity. -/

/-- Claim C4 counterexample: a run over two closed-but-unmerged pulls 3 and 7
persists cursors 3, 7, 7 but emits no csv row; on the next run the empty
watermark map makes `_reconcilePullNumbers` reset the repo to cursor 0, and
the run persists 3 again — the cross-run sequence of saved cursors
[3, 7, 7, 3, 7, 7] is not monotonically non-decreasing. -/
theorem cursor_monotonicity_counterexample :
    harvestRun ["bob"] ["r"]
        [[{ number := 3, author := "bob", closedAt := some "d", mergedAt := none },
          { number := 7, author := "bob", closedAt := some "d", mergedAt := none }]]
        "r" [] [] =
      Except.ok { prog := { page := 1, pullNumber := 7, openPR := [] },
                  emitted := [], saves := [3, 7, 7] } ∧
    harvestRun ["bob"] ["r"]
        [[{ number := 3, author := "bob", closedAt := some "d", mergedAt := none },
          { number := 7, author := "bob", closedAt := some "d", mergedAt := none }]]
        "r" [("r", { page := 1, pullNumber := 7, openPR := [] })] (csvRowsOf "r" []) =
      Except.ok { prog := { page := 1, pullNumber := 7, openPR := [] },
                  emitted := [], saves := [3, 7, 7] } ∧
    ¬ List.Chain' (· ≤ ·) ([3, 7, 7] ++ [3, 7, 7] : List Nat) := by
  refine ⟨rfl, rfl, ?_⟩
  intro hchain
  simp [List.chain'_cons] at hchain

/-! Monotonicity lemmas for the per-item scan. -/

theorem processItem_cursor_mono (engineers : List String) (p : Nat) (s : ScanState)
    (pr : PR) : s.prog.pullNumber ≤ (processItem engineers p s pr).prog.pullNumber := by
  unfold processItem
  by_cases h : pr.number ≤ s.prog.pullNumber
  · rw [if_pos h]
  · rw [if_neg h]
    simp
    omega

theorem processPage_cursor_mono (engineers : List String) (p : Nat) (xs : List PR)
    (s : ScanState) :
    s.prog.pullNumber ≤ (processPage engineers p s xs).prog.pullNumber := by
  induction xs generalizing s with
  | nil => exact le_refl _
  | cons pr rest ih =>
    exact le_trans (processItem_cursor_mono engineers p s pr)
      (ih (processItem engineers p s pr))

theorem processPage_openPR_mono (engineers : List String) (p : Nat) (xs : List PR)
    (s : ScanState) (n : Nat) (hn : n ∈ s.prog.openPR) :
    n ∈ (processPage engineers p s xs).prog.openPR := by
  induction xs generalizing s with
  | nil => exact hn
  | cons pr rest ih =>
    refine ih (processItem engineers p s pr) ?_
    unfold processItem
    by_cases h : pr.number ≤ s.prog.pullNumber
    · rw [if_pos h]; exact hn
    · rw [if_neg h]
      by_cases ho : (rosterHas engineers pr.author && prIsOpen pr) = true
      · simp [ho]
        exact Or.inl hn
      · simp [ho]
        exact hn

theorem processPage_saves_mono (engineers : List String) (p : Nat) (xs : List PR)
    (s : ScanState) (n : Nat) (hn : n ∈ s.saves) :
    n ∈ (processPage engineers p s xs).saves := by
  induction xs generalizing s with
  | nil => exact hn
  | cons pr rest ih =>
    refine ih (processItem engineers p s pr) ?_
    unfold processItem
    by_cases h : pr.number ≤ s.prog.pullNumber
    · rw [if_pos h]; exact hn
    · rw [if_neg h]
      simp
      exact Or.inl hn

/-- Claim C3 (amended): an item in an open state whose author is a tracked
engineer and whose number exceeds the cursor when its page is scanned is added
to the entity's `openPR` list, and the persisted cursor advances to at least
that item's id — the item's own checkpoint save writes its id as the cursor
(so the `<=` skip test will not revisit it) and later items advance the cursor
further; the item is revisited through `openPR`, not by holding the cursor
back.  Open items by non-tracked authors are not added. -/
theorem open_roster_item_tracked (engineers : List String) (p : Nat) (xs : List PR)
    (s : ScanState) (pr : PR)
    (hsorted : List.Pairwise (fun a b : PR => a.number < b.number) xs)
    (hmem : pr ∈ xs) (hgt : s.prog.pullNumber < pr.number)
    (hopen : prIsOpen pr = true) (hroster : rosterHas engineers pr.author = true) :
    pr.number ∈ (processPage engineers p s xs).prog.openPR ∧
    pr.number ∈ (processPage engineers p s xs).saves ∧
    pr.number ≤ (processPage engineers p s xs).prog.pullNumber := by
  induction xs generalizing s with
  | nil => cases hmem
  | cons h rest ih =>
    obtain ⟨hhd, htl⟩ := List.pairwise_cons.mp hsorted
    rcases List.mem_cons.mp hmem with heq | hmem2
    · subst heq
      have hskip : ¬ pr.number ≤ s.prog.pullNumber := by omega
      have hstep : processItem engineers p s pr =
          { prog := { page := p, pullNumber := pr.number,
                      openPR := s.prog.openPR ++ [pr.number] },
            emitted := s.emitted,
            saves := s.saves ++ [pr.number] } := by
        unfold processItem
        rw [if_neg hskip]
        have hmerged : prIsMerged pr = false := by
          cases hmg : pr.mergedAt with
          | none => simp [prIsMerged, hmg]
          | some v =>
            unfold prIsOpen at hopen
            rw [hmg] at hopen
            simp at hopen
        simp [hroster, hopen, hmerged]
      show pr.number ∈ (processPage engineers p (processItem engineers p s pr) rest).prog.openPR ∧
        pr.number ∈ (processPage engineers p (processItem engineers p s pr) rest).saves ∧
        pr.number ≤ (processPage engineers p (processItem engineers p s pr) rest).prog.pullNumber
      rw [hstep]
      refine ⟨processPage_openPR_mono engineers p rest _ pr.number (by simp),
        processPage_saves_mono engineers p rest _ pr.number (by simp), ?_⟩
      exact processPage_cursor_mono engineers p rest
        { prog := { page := p, pullNumber := pr.number,
                    openPR := s.prog.openPR ++ [pr.number] },
          emitted := s.emitted, saves := s.saves ++ [pr.number] }
    · have hlt : (processItem engineers p s h).prog.pullNumber < pr.number := by
        unfold processItem
        by_cases hc : h.number ≤ s.prog.pullNumber
        · rw [if_pos hc]; exact hgt
        · rw [if_neg hc]
          simpa using hhd pr hmem2
      exact ih (processItem engineers p s h) htl hmem2 hlt

/-- Witness for the amended C3 at a concrete page: open pull 3 by "al" is
tracked in `openPR`, its id is persisted, and the cursor ends at ≥ 3. -/
theorem open_roster_item_tracked_witness :
    List.Pairwise (fun a b : PR => a.number < b.number)
      [{ number := 3, author := "al", closedAt := none, mergedAt := none },
       { number := 4, author := "al", closedAt := some "2023-01-01",
         mergedAt := some "2023-01-02" }] ∧
    (3 : Nat) ∈ (processPage ["al"] 1 freshScan
      [{ number := 3, author := "al", closedAt := none, mergedAt := none },
       { number := 4, author := "al", closedAt := some "2023-01-01",
         mergedAt := some "2023-01-02" }]).prog.openPR :=
  ⟨by decide,
    (open_roster_item_tracked ["al"] 1
      [{ number := 3, author := "al", closedAt := none, mergedAt := none },
       { number := 4, author := "al", closedAt := some "2023-01-01",
         mergedAt := some "2023-01-02" }] freshScan
      { number := 3, author := "al", closedAt := none, mergedAt := none }
      (by decide) (by decide) (by decide) (by decide) (by decide)).1⟩

/-! Chain lemmas for the sequence of saved cursors. -/

theorem mychain_le_replace_last (l : List Nat) (c n : Nat)
    (h : List.Chain' (· ≤ ·) (l ++ [c])) (hcn : c ≤ n) :
    List.Chain' (· ≤ ·) (l ++ [n]) := by
  rcases List.chain'_append.mp h with ⟨h1, _, h3⟩
  refine List.chain'_append.mpr ⟨h1, List.chain'_singleton n, ?_⟩
  intro x hx y hy
  simp at hy
  subst hy
  exact le_trans (h3 x hx c (by simp)) hcn

theorem mychain_snoc_last (l : List Nat) (x y : Nat)
    (h : List.Chain' (· ≤ ·) (l ++ [x])) (hxy : x ≤ y) :
    List.Chain' (· ≤ ·) ((l ++ [x]) ++ [y]) := by
  refine List.chain'_append.mpr ⟨h, List.chain'_singleton y, ?_⟩
  intro a ha b hb
  simp at hb
  subst hb
  rw [List.getLast?_concat] at ha
  simp at ha
  subst ha
  exact hxy

/-- Invariant: the saved-cursor trail of a scan state, prefixed by the initial
cursor and closed by the current cursor, is a ≤-chain; `processItem` preserves
it because a non-skipped item's save writes the item's number, which exceeds
the previous cursor. -/
theorem savesChain_processItem (engineers : List String) (p : Nat) (c0 : Nat)
    (s : ScanState) (pr : PR)
    (h : List.Chain' (· ≤ ·) ((c0 :: s.saves) ++ [s.prog.pullNumber])) :
    List.Chain' (· ≤ ·)
      ((c0 :: (processItem engineers p s pr).saves) ++
        [(processItem engineers p s pr).prog.pullNumber]) := by
  unfold processItem
  by_cases hc : pr.number ≤ s.prog.pullNumber
  · rw [if_pos hc]
    exact h
  · rw [if_neg hc]
    have h1 := mychain_le_replace_last (c0 :: s.saves) s.prog.pullNumber pr.number h
      (by omega)
    have h2 := mychain_snoc_last (c0 :: s.saves) pr.number pr.number h1 (le_refl _)
    simpa [List.cons_append, List.append_assoc] using h2

theorem savesChain_processPage (engineers : List String) (p : Nat) (xs : List PR) :
    ∀ s : ScanState, List.Chain' (· ≤ ·) ((c0 :: s.saves) ++ [s.prog.pullNumber]) →
      List.Chain' (· ≤ ·)
        ((c0 :: (processPage engineers p s xs).saves) ++
          [(processPage engineers p s xs).prog.pullNumber]) := by
  induction xs with
  | nil => intro s h; exact h
  | cons pr rest ih =>
    intro s h
    exact ih (processItem engineers p s pr) (savesChain_processItem engineers p c0 s pr h)

theorem savesChain_endSave (c0 : Nat) (s : ScanState)
    (h : List.Chain' (· ≤ ·) ((c0 :: s.saves) ++ [s.prog.pullNumber])) :
    List.Chain' (· ≤ ·) ((c0 :: (endSave s).saves) ++ [(endSave s).prog.pullNumber]) := by
  unfold endSave
  have h2 := mychain_snoc_last (c0 :: s.saves) s.prog.pullNumber s.prog.pullNumber h
    (le_refl _)
  simpa [List.cons_append, List.append_assoc] using h2

theorem savesChain_runPages (engineers : List String) (c0 : Nat) :
    ∀ (pgs : List (List PR)) (p : Nat) (s : ScanState),
      List.Chain' (· ≤ ·) ((c0 :: s.saves) ++ [s.prog.pullNumber]) →
      List.Chain' (· ≤ ·)
        ((c0 :: (runPages engineers pgs p s).saves) ++
          [(runPages engineers pgs p s).prog.pullNumber]) := by
  intro pgs
  induction pgs with
  | nil => intro p s h; exact savesChain_endSave c0 s h
  | cons pg rest ih =>
    intro p s h
    show List.Chain' (· ≤ ·)
      ((c0 :: (if pg.isEmpty then endSave s
          else runPages engineers rest (p + 1) (processPage engineers p s pg)).saves) ++
        [(if pg.isEmpty then endSave s
          else runPages engineers rest (p + 1) (processPage engineers p s pg)).prog.pullNumber])
    by_cases he : pg.isEmpty
    · rw [if_pos he]
      exact savesChain_endSave c0 s h
    · rw [if_neg he]
      exact ih (p + 1) (processPage engineers p s pg)
        (savesChain_processPage engineers p pg s h)

/-! The `_processOpenPR` drain performs no checkpoint saves and leaves the
cursor and page untouched. -/

theorem drainOne_preserves (engineers : List String) (univ : List (List PR))
    (s : ScanState) (n : Nat) (s2 : ScanState)
    (h : drainOne engineers univ s n = Except.ok s2) :
    s2.prog.page = s.prog.page ∧ s2.prog.pullNumber = s.prog.pullNumber ∧
      s2.saves = s.saves := by
  unfold drainOne at h
  cases hf : findPR univ n with
  | none => rw [hf] at h; cases h
  | some pr =>
    rw [hf] at h
    dsimp only at h
    by_cases ho : prIsOpen pr = true
    · rw [if_pos ho] at h
      cases h
      exact ⟨rfl, rfl, rfl⟩
    · rw [if_neg ho] at h
      by_cases hm : prIsMerged pr = true
      · rw [if_pos hm] at h
        by_cases hr : rosterHas engineers pr.author = true
        · rw [if_pos hr] at h
          cases h
          exact ⟨rfl, rfl, rfl⟩
        · rw [if_neg hr] at h
          cases h
      · rw [if_neg hm] at h
        cases h
        exact ⟨rfl, rfl, rfl⟩

theorem drainFold_preserves (engineers : List String) (univ : List (List PR)) :
    ∀ (l : List Nat) (s0 s2 : ScanState),
      l.foldlM (drainOne engineers univ) s0 = Except.ok s2 →
      s2.prog.page = s0.prog.page ∧ s2.prog.pullNumber = s0.prog.pullNumber ∧
        s2.saves = s0.saves := by
  intro l
  induction l with
  | nil =>
    intro s0 s2 h
    cases h
    exact ⟨rfl, rfl, rfl⟩
  | cons n rest ih =>
    intro s0 s2 h
    rw [List.foldlM_cons] at h
    cases hd : drainOne engineers univ s0 n with
    | error e => rw [hd] at h; cases h
    | ok s1 =>
      rw [hd] at h
      have hstep := drainOne_preserves engineers univ s0 n s1 hd
      have hrest := ih s1 s2 h
      exact ⟨hrest.1.trans hstep.1, hrest.2.1.trans hstep.2.1, hrest.2.2.trans hstep.2.2⟩

theorem processOpenPR_preserves (engineers : List String) (univ : List (List PR))
    (s : ScanState) (s2 : ScanState) (h : processOpenPR engineers univ s = Except.ok s2) :
    s2.prog.page = s.prog.page ∧ s2.prog.pullNumber = s.prog.pullNumber ∧
      s2.saves = s.saves := by
  unfold processOpenPR at h
  have hres := drainFold_preserves engineers univ s.prog.openPR
    { s with prog := { s.prog with openPR := [] } } s2 h
  exact hres

/-- Claim C4 (amended): within one run — i.e. across the sequence of
`_writePullsProcessed` calls made by `_runQueryAPI` after reconciliation —
the persisted cursor is monotonically non-decreasing, and the first save is
at least the reconciled starting cursor (the drain of `openPR` performs no
saves).  Across runs the persisted cursor can decrease: when the output csv
holds no rows, reconciliation resets every roster repo to cursor 0 and the
next run re-persists smaller cursors. -/
theorem persisted_cursor_monotone_within_run (engineers : List String)
    (univ : List (List PR)) (prog : RepoProgress) (em : List Nat) (s2 : ScanState)
    (h : runQueryAPI engineers univ { prog := prog, emitted := em, saves := [] } =
      Except.ok s2) :
    List.Chain' (· ≤ ·) (prog.pullNumber :: s2.saves) := by
  unfold runQueryAPI at h
  cases hd : processOpenPR engineers univ { prog := prog, emitted := em, saves := [] } with
  | error e => rw [hd] at h; cases h
  | ok s1 =>
    rw [hd] at h
    have hpres := processOpenPR_preserves engineers univ _ s1 hd
    have hs2 : s2 = runPages engineers (pagesFrom univ s1.prog.page) s1.prog.page s1 := by
      cases h
      rfl
    have h0 : List.Chain' (· ≤ ·) ((prog.pullNumber :: s1.saves) ++ [s1.prog.pullNumber]) := by
      rw [hpres.2.2, hpres.2.1]
      simp
    have hchain := savesChain_runPages engineers prog.pullNumber
      (pagesFrom univ s1.prog.page) s1.prog.page s1 h0
    rw [← hs2] at hchain
    exact (List.chain'_append.mp hchain).1

/-- Witness for the amended C4: a one-page run over the merged pull 1 saves
cursors [1, 1] starting from reconciled cursor 0, a ≤-chain. -/
theorem persisted_cursor_monotone_within_run_witness :
    runQueryAPI ["al"]
        [[{ number := 1, author := "al", closedAt := some "d", mergedAt := some "d" }]]
        { prog := initProg, emitted := [], saves := [] } =
      Except.ok { prog := { page := 1, pullNumber := 1, openPR := [] },
                  emitted := [1], saves := [1, 1] } ∧
    List.Chain' (· ≤ ·) (initProg.pullNumber :: [1, 1]) :=
  ⟨rfl,
    persisted_cursor_monotone_within_run ["al"]
      [[{ number := 1, author := "al", closedAt := some "d", mergedAt := some "d" }]]
      initProg []
      { prog := { page := 1, pullNumber := 1, openPR := [] },
        emitted := [1], saves := [1, 1] } rfl⟩

/-! Arithmetic facts about the running cursor, which evolves by
`if n > c then n else c`, i.e. by `max`. -/

theorem foldl_max_le_init (l : List Nat) : ∀ c : Nat, c ≤ l.foldl max c := by
  induction l with
  | nil => intro c; exact le_refl c
  | cons x rest ih =>
    intro c
    exact le_trans (le_max_left c x) (ih (max c x))

theorem foldl_max_mem_le (l : List Nat) : ∀ (c x : Nat), x ∈ l → x ≤ l.foldl max c := by
  induction l with
  | nil => intro c x hx; cases hx
  | cons y rest ih =>
    intro c x hx
    rcases List.mem_cons.mp hx with h1 | h1
    · subst h1
      exact le_trans (le_max_right c x) (foldl_max_le_init rest (max c x))
    · exact ih (max c y) x h1

theorem foldl_max_lt (l : List Nat) : ∀ (c x : Nat), c < x → (∀ y ∈ l, y < x) →
    l.foldl max c < x := by
  induction l with
  | nil => intro c x hc _; exact hc
  | cons y rest ih =>
    intro c x hc hl
    refine ih (max c y) x ?_ (fun z hz => hl z (List.mem_cons_of_mem y hz))
    exact max_lt hc (hl y (List.mem_cons_self y rest))

theorem foldl_max_le_bound (l : List Nat) : ∀ (c x : Nat), c ≤ x → (∀ y ∈ l, y ≤ x) →
    l.foldl max c ≤ x := by
  induction l with
  | nil => intro c x hc _; exact hc
  | cons y rest ih =>
    intro c x hc hl
    refine ih (max c y) x ?_ (fun z hz => hl z (List.mem_cons_of_mem y hz))
    exact max_le hc (hl y (List.mem_cons_self y rest))

/-- Items whose numbers do not exceed the cursor are skipped without any
state change (`continue` at GithubPR.py line 293). -/
theorem processPage_skip (engineers : List String) (p : Nat) (xs : List PR) :
    ∀ s : ScanState, (∀ pr ∈ xs, pr.number ≤ s.prog.pullNumber) →
      processPage engineers p s xs = s := by
  induction xs with
  | nil => intro s _; rfl
  | cons pr rest ih =>
    intro s h
    have hstep : processItem engineers p s pr = s := by
      unfold processItem
      rw [if_pos (h pr (List.mem_cons_self pr rest))]
    show processPage engineers p (processItem engineers p s pr) rest = s
    rw [hstep]
    exact ih s (fun q hq => h q (List.mem_cons_of_mem pr hq))

theorem processPage_append (engineers : List String) (p : Nat) (u v : List PR)
    (s : ScanState) :
    processPage engineers p s (u ++ v) = processPage engineers p (processPage engineers p s u) v := by
  unfold processPage
  exact List.foldl_append (processItem engineers p) s u v

/-- Full characterisation of one page scan when every item is beyond the
cursor: the emitted rows are the merged roster items, `openPR` gains the open
roster items, every item's number is saved, and the cursor ends at the
maximum number seen. -/
theorem processPage_char (engineers : List String) (p : Nat) (xs : List PR) :
    ∀ s : ScanState,
      List.Pairwise (fun a b : PR => a.number < b.number) xs →
      (∀ pr ∈ xs, s.prog.pullNumber < pr.number) →
      processPage engineers p s xs =
        { prog := { page := if xs.isEmpty then s.prog.page else p,
                    pullNumber := (numsOf xs).foldl max s.prog.pullNumber,
                    openPR := s.prog.openPR ++ openRosterNums engineers xs },
          emitted := s.emitted ++ mergedRosterNums engineers xs,
          saves := s.saves ++ numsOf xs } := by
  induction xs with
  | nil =>
    intro s _ _
    simp only [numsOf, openRosterNums, mergedRosterNums, List.map_nil, List.filter_nil,
      List.append_nil, List.foldl_nil, List.isEmpty_nil, if_true]
    rfl
  | cons pr rest ih =>
    intro s hsorted hgt
    obtain ⟨hhd, htl⟩ := List.pairwise_cons.mp hsorted
    have hgtpr : s.prog.pullNumber < pr.number := hgt pr (List.mem_cons_self pr rest)
    have hstep : processItem engineers p s pr =
        { prog := { page := p, pullNumber := pr.number,
                    openPR := s.prog.openPR ++
                      (if rosterHas engineers pr.author && prIsOpen pr then [pr.number]
                       else []) },
          emitted := s.emitted ++
            (if rosterHas engineers pr.author && prIsMerged pr then [pr.number] else []),
          saves := s.saves ++ [pr.number] } := by
      unfold processItem
      rw [if_neg (by omega)]
      by_cases ho : (rosterHas engineers pr.author && prIsOpen pr) = true <;>
        by_cases hm : (rosterHas engineers pr.author && prIsMerged pr) = true <;>
          simp [ho, hm]
    show processPage engineers p (processItem engineers p s pr) rest = _
    rw [hstep]
    rw [ih _ htl (by
      intro q hq
      simpa using hhd q hq)]
    have hmax : max s.prog.pullNumber pr.number = pr.number :=
      Nat.max_eq_right (le_of_lt hgtpr)
    by_cases hrest : rest.isEmpty <;>
      by_cases ho : (rosterHas engineers pr.author && prIsOpen pr) = true <;>
        by_cases hm : (rosterHas engineers pr.author && prIsMerged pr) = true <;>
          simp [hrest, ho, hm, numsOf, openRosterNums, mergedRosterNums,
            List.filter_cons, hmax, List.append_assoc]

theorem mergedRosterNums_append (engineers : List String) (u v : List PR) :
    mergedRosterNums engineers (u ++ v) =
      mergedRosterNums engineers u ++ mergedRosterNums engineers v := by
  unfold mergedRosterNums
  rw [List.filter_append, List.map_append]

theorem openRosterNums_append (engineers : List String) (u v : List PR) :
    openRosterNums engineers (u ++ v) =
      openRosterNums engineers u ++ openRosterNums engineers v := by
  unfold openRosterNums
  rw [List.filter_append, List.map_append]

theorem numsOf_append (u v : List PR) : numsOf (u ++ v) = numsOf u ++ numsOf v := by
  unfold numsOf
  rw [List.map_append]

/-- Key resume lemma: running the paging loop over pages whose flattened item
stream splits as `u ++ v`, with every `u`-item at or below the cursor (already
processed in an earlier pass) and every `v`-item beyond it, emits exactly the
merged roster rows of `v` — nothing is re-emitted and nothing is skipped. -/
theorem runPages_mixed (engineers : List String) (pgs : List (List PR)) :
    ∀ (p : Nat) (s : ScanState) (u v : List PR),
      pgs.flatten = u ++ v →
      (∀ pg ∈ pgs, pg ≠ []) →
      List.Pairwise (fun a b : PR => a.number < b.number) pgs.flatten →
      (∀ pr ∈ u, pr.number ≤ s.prog.pullNumber) →
      (∀ pr ∈ v, s.prog.pullNumber < pr.number) →
      (runPages engineers pgs p s).emitted =
        s.emitted ++ mergedRosterNums engineers v := by
  induction pgs with
  | nil =>
    intro p s u v hflat _ _ hu hv
    have hu0 : u = [] := by
      cases u with
      | nil => rfl
      | cons x xs => simp at hflat
    subst hu0
    have hv0 : v = [] := by simpa using hflat.symm
    subst hv0
    simp [runPages, endSave, mergedRosterNums]
  | cons pg rest ih =>
    intro p s u v hflat hne hsorted hu hv
    have hpg : pg ≠ [] := hne pg (List.mem_cons_self pg rest)
    have hpgE : pg.isEmpty = false := by
      cases pg with
      | nil => exact absurd rfl hpg
      | cons x xs => rfl
    have hstep : runPages engineers (pg :: rest) p s =
        runPages engineers rest (p + 1) (processPage engineers p s pg) := by
      show (if pg.isEmpty then endSave s
        else runPages engineers rest (p + 1) (processPage engineers p s pg)) = _
      rw [hpgE]
      simp
    rw [hstep]
    have hflat2 : pg ++ rest.flatten = u ++ v := by
      simpa [List.flatten_cons] using hflat
    have hsorted2 : List.Pairwise (fun a b : PR => a.number < b.number)
        (pg ++ rest.flatten) := by
      simpa [List.flatten_cons] using hsorted
    rcases List.append_eq_append_iff.mp hflat2 with ⟨u2, hu2, hrf⟩ | ⟨w, hpg2, hv2⟩
    · -- pg is an initial segment of u: the whole page is skipped
      have hskip : processPage engineers p s pg = s := by
        refine processPage_skip engineers p pg s (fun pr hpr => ?_)
        exact hu pr (by rw [hu2]; exact List.mem_append_left u2 hpr)
      rw [hskip]
      refine ih (p + 1) s u2 v hrf (fun q hq => hne q (List.mem_cons_of_mem pg hq))
        (by simpa [List.flatten_cons] using (List.pairwise_append.mp hsorted2).2.1)
        (fun pr hpr => hu pr (by rw [hu2]; exact List.mem_append_right pg hpr)) hv
    · -- pg = u ++ w: skip u, process w, and the rest is all fresh
      subst hpg2
      have hwv : ∀ pr ∈ w, pr ∈ v := by
        intro pr hpr
        rw [hv2]
        exact List.mem_append_left rest.flatten hpr
      have hpgsplit : processPage engineers p s (u ++ w) = processPage engineers p s w := by
        rw [processPage_append]
        rw [processPage_skip engineers p u s hu]
      rw [hpgsplit]
      have hsortedw : List.Pairwise (fun a b : PR => a.number < b.number) w :=
        ((List.pairwise_append.mp (List.pairwise_append.mp hsorted2).1).2.1)
      have hwgt : ∀ pr ∈ w, s.prog.pullNumber < pr.number := fun pr hpr => hv pr (hwv pr hpr)
      rw [processPage_char engineers p w s hsortedw hwgt]
      have hcross : ∀ x ∈ u ++ w, ∀ y ∈ rest.flatten,
          x.number < y.number := (List.pairwise_append.mp hsorted2).2.2
      have hnext : ∀ pr ∈ rest.flatten,
          (numsOf w).foldl max s.prog.pullNumber < pr.number := by
        intro pr hpr
        refine foldl_max_lt (numsOf w) s.prog.pullNumber pr.number ?_ ?_
        · exact hv pr (by rw [hv2]; exact List.mem_append_right w hpr)
        · intro y hy
          rcases List.mem_map.mp hy with ⟨q, hq, hqy⟩
          subst hqy
          exact hcross q (List.mem_append_right u hq) pr hpr
      have := ih (p + 1)
        { prog := { page := if w.isEmpty then s.prog.page else p,
                    pullNumber := (numsOf w).foldl max s.prog.pullNumber,
                    openPR := s.prog.openPR ++ openRosterNums engineers w },
          emitted := s.emitted ++ mergedRosterNums engineers w,
          saves := s.saves ++ numsOf w }
        [] rest.flatten rfl
        (fun q hq => hne q (List.mem_cons_of_mem _ hq))
        (by simpa [List.flatten_cons] using (List.pairwise_append.mp hsorted2).2.1)
        (fun pr hpr => absurd hpr (List.not_mem_nil pr))
        hnext
      rw [this]
      show (s.emitted ++ mergedRosterNums engineers w) ++
          mergedRosterNums engineers rest.flatten =
        s.emitted ++ mergedRosterNums engineers v
      rw [hv2, mergedRosterNums_append, List.append_assoc]

/-- Characterisation of a full multi-page scan from a cursor below every item:
as `processPage_char`, with the final recorded page being the last page
number. -/
theorem foldPages_char (engineers : List String) (pgs : List (List PR)) :
    ∀ (p : Nat) (s : ScanState),
      (∀ pg ∈ pgs, pg ≠ []) →
      List.Pairwise (fun a b : PR => a.number < b.number) pgs.flatten →
      (∀ pr ∈ pgs.flatten, s.prog.pullNumber < pr.number) →
      foldPages engineers pgs p s =
        { prog := { page := if pgs.isEmpty then s.prog.page else p + pgs.length - 1,
                    pullNumber := (numsOf pgs.flatten).foldl max s.prog.pullNumber,
                    openPR := s.prog.openPR ++ openRosterNums engineers pgs.flatten },
          emitted := s.emitted ++ mergedRosterNums engineers pgs.flatten,
          saves := s.saves ++ numsOf pgs.flatten } := by
  induction pgs with
  | nil =>
    intro p s _ _ _
    simp only [List.flatten_nil, numsOf, openRosterNums, mergedRosterNums, List.map_nil,
      List.filter_nil, List.append_nil, List.foldl_nil, List.isEmpty_nil, if_true]
    rfl
  | cons pg rest ih =>
    intro p s hne hsorted hgt
    have hpg : pg ≠ [] := hne pg (List.mem_cons_self pg rest)
    have hpgE : pg.isEmpty = false := by
      cases pg with
      | nil => exact absurd rfl hpg
      | cons x xs => rfl
    have hsorted2 : List.Pairwise (fun a b : PR => a.number < b.number)
        (pg ++ rest.flatten) := by
      simpa [List.flatten_cons] using hsorted
    obtain ⟨hpgsort, hrestsort, hcross⟩ := List.pairwise_append.mp hsorted2
    have hgtpg : ∀ pr ∈ pg, s.prog.pullNumber < pr.number := by
      intro pr hpr
      refine hgt pr ?_
      rw [List.flatten_cons]
      exact List.mem_append_left rest.flatten hpr
    show foldPages engineers rest (p + 1) (processPage engineers p s pg) = _
    rw [processPage_char engineers p pg s hpgsort hgtpg]
    have hgtrest : ∀ pr ∈ rest.flatten,
        (numsOf pg).foldl max s.prog.pullNumber < pr.number := by
      intro pr hpr
      refine foldl_max_lt (numsOf pg) s.prog.pullNumber pr.number ?_ ?_
      · refine hgt pr ?_
        rw [List.flatten_cons]
        exact List.mem_append_right pg hpr
      · intro y hy
        rcases List.mem_map.mp hy with ⟨q, hq, hqy⟩
        subst hqy
        exact hcross q hq pr hpr
    rw [ih (p + 1) _ (fun q hq => hne q (List.mem_cons_of_mem pg hq)) hrestsort hgtrest]
    simp only [List.flatten_cons, numsOf_append, openRosterNums_append,
      mergedRosterNums_append, List.foldl_append, List.append_assoc,
      List.isEmpty_cons, List.length_cons, Bool.false_eq_true, if_false,
      ScanState.mk.injEq, RepoProgress.mk.injEq]
    refine ⟨⟨?_, trivial, trivial⟩, trivial, trivial⟩
    by_cases hre : rest.isEmpty
    · have hre2 : rest = [] := List.isEmpty_iff.mp hre
      subst hre2
      simp [hpgE]
    · have hlen : rest.length ≠ 0 := by
        intro hc
        exact absurd (List.isEmpty_iff.mpr (List.length_eq_zero.mp hc)) (by simpa using hre)
      rw [if_neg (by simpa using hre)]
      omega

/-- Characterisation of the state at an arbitrary item-boundary kill of a
fresh pass: pages `P` fully processed and the prefix `a` of the next page.
From cursor 0 nothing is skipped, so the state records exactly the already
scanned items. -/
theorem killState_char (engineers : List String) (P : List (List PR)) (a : List PR)
    (hsorted : List.Pairwise (fun x y : PR => x.number < y.number) (P.flatten ++ a))
    (hpos : ∀ pr ∈ P.flatten ++ a, 1 ≤ pr.number)
    (hP : ∀ pg ∈ P, pg ≠ []) :
    killState engineers P a =
      { prog := { page := if a.isEmpty then (if P.isEmpty then 1 else P.length)
                          else P.length + 1,
                  pullNumber := (numsOf (P.flatten ++ a)).foldl max 0,
                  openPR := openRosterNums engineers (P.flatten ++ a) },
        emitted := mergedRosterNums engineers (P.flatten ++ a),
        saves := numsOf (P.flatten ++ a) } := by
  unfold killState
  obtain ⟨hPsort, hasort, hcross⟩ := List.pairwise_append.mp hsorted
  have hgtP : ∀ pr ∈ P.flatten, freshScan.prog.pullNumber < pr.number := by
    intro pr hpr
    have h1 := hpos pr (List.mem_append_left a hpr)
    show 0 < pr.number
    omega
  rw [foldPages_char engineers P 1 freshScan hP hPsort hgtP]
  have hgta : ∀ pr ∈ a,
      ({ prog := { page := if P.isEmpty then freshScan.prog.page else 1 + P.length - 1,
                   pullNumber := (numsOf P.flatten).foldl max freshScan.prog.pullNumber,
                   openPR := freshScan.prog.openPR ++ openRosterNums engineers P.flatten },
         emitted := freshScan.emitted ++ mergedRosterNums engineers P.flatten,
         saves := freshScan.saves ++ numsOf P.flatten } : ScanState).prog.pullNumber <
        pr.number := by
    intro pr hpr
    show (numsOf P.flatten).foldl max freshScan.prog.pullNumber < pr.number
    refine foldl_max_lt _ _ _ ?_ ?_
    · have h1 := hpos pr (List.mem_append_right P.flatten hpr)
      show (0 : Nat) < pr.number
      omega
    · intro y hy
      rcases List.mem_map.mp hy with ⟨q, hq, hqy⟩
      subst hqy
      exact hcross q hq pr hpr
  rw [processPage_char engineers (P.length + 1) a _ hasort hgta]
  simp only [freshScan, initProg, List.nil_append, numsOf_append, openRosterNums_append,
    mergedRosterNums_append, List.foldl_append, ScanState.mk.injEq, RepoProgress.mk.injEq]
  refine ⟨⟨?_, trivial, trivial⟩, trivial, trivial⟩
  by_cases ha : a.isEmpty <;> by_cases hPe : P.isEmpty
  · have hP0 : P = [] := List.isEmpty_iff.mp hPe
    subst hP0
    simp [ha]
  · have hlen : P.length ≠ 0 := by
      intro hc
      exact absurd (List.isEmpty_iff.mpr (List.length_eq_zero.mp hc)) (by simpa using hPe)
    simp only [ha, hPe, Bool.false_eq_true, if_false, if_true]
    omega
  · simp [ha, hPe]
  · simp [ha, hPe]

/-- With strictly increasing numbers, fetching a pull by number over the
universe returns exactly the member item with that number. -/
theorem find_number_eq (l : List PR) (pr : PR)
    (hsorted : List.Pairwise (fun x y : PR => x.number < y.number) l) (hmem : pr ∈ l) :
    l.find? (fun q => q.number == pr.number) = some pr := by
  induction l with
  | nil => cases hmem
  | cons h rest ih =>
    obtain ⟨hhd, htl⟩ := List.pairwise_cons.mp hsorted
    rcases List.mem_cons.mp hmem with heq | hmem2
    · subst heq
      exact List.find?_cons_of_pos rest (by simp)
    · have hne : (h.number == pr.number) = false := by
        rw [beq_eq_false_iff_ne]
        exact Nat.ne_of_lt (hhd pr hmem2)
      rw [List.find?_cons_of_neg rest (by simp [hne])]
      exact ih htl hmem2

theorem findPR_eq_of_mem (univ : List (List PR)) (pr : PR)
    (hsorted : List.Pairwise (fun x y : PR => x.number < y.number) univ.flatten)
    (hmem : pr ∈ univ.flatten) : findPR univ pr.number = some pr :=
  find_number_eq univ.flatten pr hsorted hmem

/-- Every member of `openRosterNums` is the number of an open member item. -/
theorem openRosterNums_spec (engineers : List String) (xs : List PR) (n : Nat)
    (hn : n ∈ openRosterNums engineers xs) :
    ∃ pr, pr ∈ xs ∧ pr.number = n ∧ prIsOpen pr = true := by
  unfold openRosterNums at hn
  rcases List.mem_map.mp hn with ⟨pr, hpr, hnum⟩
  rcases List.mem_filter.mp hpr with ⟨hmem, hcond⟩
  have hcond2 : prIsOpen pr = true := by
    have h2 := hcond
    simp at h2
    exact h2.2
  exact ⟨pr, hmem, hnum, hcond2⟩

/-- Every emitted row number is a scanned item number. -/
theorem mergedRosterNums_subset_nums (engineers : List String) (xs : List PR) (n : Nat)
    (hn : n ∈ mergedRosterNums engineers xs) : n ∈ numsOf xs := by
  unfold mergedRosterNums at hn
  rcases List.mem_map.mp hn with ⟨pr, hpr, hnum⟩
  exact List.mem_map.mpr ⟨pr, (List.mem_filter.mp hpr).1, hnum⟩

/-- Draining a list of ids that are all still open re-appends every id and
changes nothing else (each `_processPR` call returns False before emitting). -/
theorem drainFold_all_open (engineers : List String) (univ : List (List PR))
    (l : List Nat) :
    ∀ s : ScanState, (∀ n ∈ l, ∃ pr, findPR univ n = some pr ∧ prIsOpen pr = true) →
      l.foldlM (drainOne engineers univ) s =
        Except.ok { s with prog := { s.prog with openPR := s.prog.openPR ++ l } } := by
  induction l with
  | nil =>
    intro s _
    show Except.ok s =
      Except.ok { s with prog := { s.prog with openPR := s.prog.openPR ++ [] } }
    rw [List.append_nil]
  | cons n rest ih =>
    intro s hall
    rw [List.foldlM_cons]
    obtain ⟨pr, hf, ho⟩ := hall n (List.mem_cons_self n rest)
    have hd : drainOne engineers univ s n =
        Except.ok { s with prog := { s.prog with openPR := s.prog.openPR ++ [n] } } := by
      unfold drainOne
      rw [hf]
      dsimp only
      rw [if_pos ho]
    rw [hd]
    have hbind : ((Except.ok { s with prog := { s.prog with openPR := s.prog.openPR ++ [n] } } :
          Except String ScanState) >>=
        fun s2 => rest.foldlM (drainOne engineers univ) s2) =
        rest.foldlM (drainOne engineers univ)
          { s with prog := { s.prog with openPR := s.prog.openPR ++ [n] } } := rfl
    rw [hbind]
    rw [ih _ (fun m hm => hall m (List.mem_cons_of_mem n hm))]
    rw [List.append_assoc]
    rfl

/-- `_processOpenPR` on a state whose `openPR` ids are all still open in the
universe is an identity: it pops and re-appends every id, in order. -/
theorem processOpenPR_id (engineers : List String) (univ : List (List PR))
    (s : ScanState)
    (hall : ∀ n ∈ s.prog.openPR, ∃ pr, findPR univ n = some pr ∧ prIsOpen pr = true) :
    processOpenPR engineers univ s = Except.ok s := by
  unfold processOpenPR
  rw [drainFold_all_open engineers univ s.prog.openPR
    { s with prog := { s.prog with openPR := [] } } hall]
  rw [List.nil_append]

theorem lookupRepo_single (r : String) (v : RepoProgress) :
    lookupRepo [(r, v)] r = some v := by
  unfold lookupRepo
  rw [List.find?_cons_of_pos [] (by simp)]
  rfl

theorem lookup_const_init_fold (repos : List String) (r : String) :
    ∀ m : List (String × RepoProgress),
      (r ∈ repos ∨ lookupRepo m r = some initProg) →
      lookupRepo (repos.foldl (fun m x => setRepo m x initProg) m) r = some initProg := by
  induction repos with
  | nil =>
    intro m h
    rcases h with h | h
    · cases h
    · exact h
  | cons x rest ih =>
    intro m h
    simp only [List.foldl_cons]
    by_cases hxr : x = r
    · subst hxr
      exact ih _ (Or.inr (lookupRepo_setRepo_self m x initProg))
    · refine ih _ ?_
      rcases h with h | h
      · rcases List.mem_cons.mp h with h1 | h1
        · exact absurd h1.symm hxr
        · exact Or.inl h1
      · exact Or.inr (by rw [lookupRepo_setRepo_ne m x r initProg hxr]; exact h)

theorem lookup_guarded_init_fold (repos : List String) (r : String) (v : RepoProgress) :
    ∀ m : List (String × RepoProgress), lookupRepo m r = some v →
      lookupRepo
        (repos.foldl
          (fun m x => if (lookupRepo m x).isSome then m else setRepo m x initProg) m) r =
        some v := by
  induction repos with
  | nil => intro m h; exact h
  | cons x rest ih =>
    intro m h
    simp only [List.foldl_cons]
    refine ih _ ?_
    by_cases hs : (lookupRepo m x).isSome = true
    · rw [if_pos hs]; exact h
    · rw [if_neg hs]
      have hxr : x ≠ r := by
        intro hc
        subst hc
        rw [h] at hs
        simp at hs
      rw [lookupRepo_setRepo_ne m x r initProg hxr]
      exact h

theorem readPulls_fold_single (r : String) (l : List Nat) :
    ∀ w : Nat,
      (l.map (fun n => (r, n))).foldl
        (fun m e =>
          if (m.find? (fun x => x.1 == e.1)).isSome then
            m.map (fun x => if x.1 == e.1 then (x.1, max x.2 e.2) else x)
          else m ++ [e])
        [(r, w)] = [(r, l.foldl max w)] := by
  induction l with
  | nil => intro w; rfl
  | cons n rest ih =>
    intro w
    simp only [List.map_cons, List.foldl_cons]
    convert ih (max w n) using 2
    all_goals simp

/-- `_readPullsLastRecorded` over rows of a single repo records its maximum
pull number. -/
theorem readPulls_single (r : String) (n0 : Nat) (rest : List Nat) :
    readPullsLastRecorded (csvRowsOf r (n0 :: rest)) = [(r, rest.foldl max n0)] := by
  unfold readPullsLastRecorded csvRowsOf
  simp only [List.map_cons, List.foldl_cons]
  have hstep :
      (if (([] : List (String × Nat)).find? (fun x => x.1 == (r, n0).1)).isSome then
        ([] : List (String × Nat)).map
          (fun x => if x.1 == (r, n0).1 then (x.1, max x.2 (r, n0).2) else x)
      else [] ++ [(r, n0)]) = [(r, n0)] := by
    simp
  rw [hstep]
  exact readPulls_fold_single r rest n0

/-- A resumed run over durable state: checkpoint entry `prog` for repo `r` and
csv rows `e0 :: erest` for it, with the recorded watermark at or below the
checkpoint cursor and every pending open id still open in the universe.
Reconciliation keeps `prog` unchanged and the run pages from `prog.page`. -/
theorem harvestRun_resume (engineers repos : List String) (r : String)
    (univ : List (List PR)) (prog : RepoProgress) (e0 : Nat) (erest : List Nat)
    (hw : erest.foldl max e0 ≤ prog.pullNumber)
    (hallopen : ∀ n ∈ prog.openPR, ∃ pr, findPR univ n = some pr ∧ prIsOpen pr = true) :
    harvestRun engineers repos univ r [(r, prog)] (csvRowsOf r (e0 :: erest)) =
      Except.ok (runPages engineers (pagesFrom univ prog.page) prog.page
        { prog := prog, emitted := [], saves := [] }) := by
  unfold harvestRun
  rw [readPulls_single r e0 erest]
  have hrecon : reconcilePullNumbers repos [(r, prog)] [(r, erest.foldl max e0)] =
      Except.ok (setRepo
        (repos.foldl
          (fun m x => if (lookupRepo m x).isSome then m else setRepo m x initProg)
          [(r, prog)]) r prog) := by
    unfold reconcilePullNumbers
    simp only [List.isEmpty_cons, Bool.false_eq_true, if_false]
    rw [List.foldlM_cons]
    rw [lookup_guarded_init_fold repos r prog [(r, prog)] (lookupRepo_single r prog)]
    dsimp only
    rw [Nat.max_eq_left hw]
    rfl
  rw [hrecon]
  dsimp only
  rw [lookupRepo_setRepo_self _ r prog]
  dsimp only
  unfold runQueryAPI
  rw [processOpenPR_id engineers univ _ hallopen]
  rfl

/-- Claim C1 (confirmed): over a fixed provider universe of paginated pulls
with strictly increasing numbers, resuming never re-emits a row at or below
the reconciled cursor and never skips a row above it: a fresh one-pass run and
a two-pass run killed at an arbitrary item boundary (pages `P` done plus a
prefix `a` of the next page, checkpoint and csv rows durable at the boundary)
emit the same rows — the merged roster pulls, in increasing order, with no
duplicates and no omissions. -/
theorem resume_idempotence (engineers repos : List String) (r : String)
    (P S : List (List PR)) (a b : List PR)
    (hr : r ∈ repos)
    (hsorted : List.Pairwise (fun x y : PR => x.number < y.number)
      (P ++ (a ++ b) :: S).flatten)
    (hpos : ∀ pr ∈ (P ++ (a ++ b) :: S).flatten, 1 ≤ pr.number)
    (hP : ∀ pg ∈ P, pg ≠ []) (hmid : a ++ b ≠ []) (hS : ∀ pg ∈ S, pg ≠ []) :
    ∃ sOne sTwo : ScanState,
      harvestRun engineers repos (P ++ (a ++ b) :: S) r [] [] = Except.ok sOne ∧
      harvestRun engineers repos (P ++ (a ++ b) :: S) r
          [(r, (killState engineers P a).prog)]
          (csvRowsOf r (killState engineers P a).emitted) = Except.ok sTwo ∧
      (killState engineers P a).emitted ++ sTwo.emitted = sOne.emitted ∧
      sOne.emitted = mergedRosterNums engineers (P ++ (a ++ b) :: S).flatten ∧
      List.Pairwise (· < ·) ((killState engineers P a).emitted ++ sTwo.emitted) := by
  have hflat : (P ++ (a ++ b) :: S).flatten = (P.flatten ++ a) ++ (b ++ S.flatten) := by
    simp [List.flatten_append, List.flatten_cons, List.append_assoc]
  have hsorted2 : List.Pairwise (fun x y : PR => x.number < y.number)
      ((P.flatten ++ a) ++ (b ++ S.flatten)) := hflat ▸ hsorted
  obtain ⟨hsortPa, hsortBS, hcross⟩ := List.pairwise_append.mp hsorted2
  have hposPa : ∀ pr ∈ P.flatten ++ a, 1 ≤ pr.number := by
    intro pr hpr
    refine hpos pr ?_
    rw [hflat]
    exact List.mem_append_left _ hpr
  have hposBS : ∀ pr ∈ b ++ S.flatten, 1 ≤ pr.number := by
    intro pr hpr
    refine hpos pr ?_
    rw [hflat]
    exact List.mem_append_right _ hpr
  have hkill := killState_char engineers P a hsortPa hposPa hP
  have hUne : ∀ pg ∈ P ++ (a ++ b) :: S, pg ≠ [] := by
    intro pg hpg
    rcases List.mem_append.mp hpg with h | h
    · exact hP pg h
    · rcases List.mem_cons.mp h with h1 | h1
      · subst h1; exact hmid
      · exact hS pg h1
  have hpwAll : List.Pairwise (· < ·)
      (mergedRosterNums engineers (P ++ (a ++ b) :: S).flatten) := by
    unfold mergedRosterNums
    refine List.pairwise_map.mpr ?_
    exact hsorted.sublist (List.filter_sublist _)
  -- one-pass run
  have honeQ : runQueryAPI engineers (P ++ (a ++ b) :: S)
      { prog := initProg, emitted := [], saves := [] } =
      Except.ok (runPages engineers (P ++ (a ++ b) :: S) 1
        { prog := initProg, emitted := [], saves := [] }) := by
    unfold runQueryAPI
    rw [processOpenPR_id engineers (P ++ (a ++ b) :: S) _ (by intro n hn; cases hn)]
    rfl
  have honeE : (runPages engineers (P ++ (a ++ b) :: S) 1
      { prog := initProg, emitted := [], saves := [] }).emitted =
      mergedRosterNums engineers (P ++ (a ++ b) :: S).flatten := by
    have h := runPages_mixed engineers (P ++ (a ++ b) :: S) 1
      { prog := initProg, emitted := [], saves := [] } [] (P ++ (a ++ b) :: S).flatten
      (by simp) hUne hsorted (by intro pr hpr; cases hpr)
      (by intro pr hpr
          have h1 := hpos pr hpr
          show (0 : Nat) < pr.number
          omega)
    simpa using h
  have honeH : harvestRun engineers repos (P ++ (a ++ b) :: S) r [] [] =
      Except.ok (runPages engineers (P ++ (a ++ b) :: S) 1
        { prog := initProg, emitted := [], saves := [] }) := by
    unfold harvestRun
    have hrec1 : reconcilePullNumbers repos [] (readPullsLastRecorded []) =
        Except.ok (repos.foldl (fun m x => setRepo m x initProg) []) := rfl
    rw [hrec1]
    dsimp only
    rw [lookup_const_init_fold repos r [] (Or.inl hr)]
    exact honeQ
  cases hKem : mergedRosterNums engineers (P.flatten ++ a) with
  | nil =>
    -- no row was emitted before the kill: the csv is empty, reconciliation
    -- starts from scratch, and pass 2 is exactly the one-pass run
    have hkillem : (killState engineers P a).emitted = [] := by
      rw [hkill]
      exact hKem
    have htwoH : harvestRun engineers repos (P ++ (a ++ b) :: S) r
        [(r, (killState engineers P a).prog)]
        (csvRowsOf r (killState engineers P a).emitted) =
        Except.ok (runPages engineers (P ++ (a ++ b) :: S) 1
          { prog := initProg, emitted := [], saves := [] }) := by
      rw [hkillem]
      unfold harvestRun
      have hrec2 : reconcilePullNumbers repos [(r, (killState engineers P a).prog)]
          (readPullsLastRecorded (csvRowsOf r [])) =
          Except.ok (repos.foldl (fun m x => setRepo m x initProg)
            [(r, (killState engineers P a).prog)]) := rfl
      rw [hrec2]
      dsimp only
      rw [lookup_const_init_fold repos r [(r, (killState engineers P a).prog)]
        (Or.inl hr)]
      exact honeQ
    refine ⟨runPages engineers (P ++ (a ++ b) :: S) 1
        { prog := initProg, emitted := [], saves := [] },
      runPages engineers (P ++ (a ++ b) :: S) 1
        { prog := initProg, emitted := [], saves := [] },
      honeH, htwoH, ?_, honeE, ?_⟩
    · rw [hkillem, honeE, List.nil_append]
    · rw [hkillem, honeE, List.nil_append]
      exact hpwAll
  | cons e0 erest =>
    -- rows were emitted before the kill: the watermark is at most the
    -- checkpoint cursor, reconciliation keeps the checkpoint, the drain
    -- re-appends the still-open pulls, and paging resumes at the recorded
    -- page, skipping exactly the already-processed numbers
    have hw : erest.foldl max e0 ≤ (numsOf (P.flatten ++ a)).foldl max 0 := by
      refine foldl_max_le_bound erest e0 _ ?_ ?_
      · refine foldl_max_mem_le _ 0 e0 (mergedRosterNums_subset_nums engineers _ e0 ?_)
        rw [hKem]
        exact List.mem_cons_self e0 erest
      · intro y hy
        refine foldl_max_mem_le _ 0 y (mergedRosterNums_subset_nums engineers _ y ?_)
        rw [hKem]
        exact List.mem_cons_of_mem e0 hy
    have hallopen : ∀ n ∈ openRosterNums engineers (P.flatten ++ a),
        ∃ pr, findPR (P ++ (a ++ b) :: S) n = some pr ∧ prIsOpen pr = true := by
      intro n hn
      obtain ⟨pr, hmem, hnum, hopen⟩ := openRosterNums_spec engineers _ n hn
      refine ⟨pr, ?_, hopen⟩
      rw [← hnum]
      refine findPR_eq_of_mem _ pr hsorted ?_
      rw [hflat]
      exact List.mem_append_left _ hmem
    have hH2 := harvestRun_resume engineers repos r (P ++ (a ++ b) :: S)
      { page := if a.isEmpty then (if P.isEmpty then 1 else P.length) else P.length + 1,
        pullNumber := (numsOf (P.flatten ++ a)).foldl max 0,
        openPR := openRosterNums engineers (P.flatten ++ a) }
      e0 erest hw hallopen
    have hkillprog : (killState engineers P a).prog =
        { page := if a.isEmpty then (if P.isEmpty then 1 else P.length) else P.length + 1,
          pullNumber := (numsOf (P.flatten ++ a)).foldl max 0,
          openPR := openRosterNums engineers (P.flatten ++ a) } := by
      rw [hkill]
    have hkillem2 : (killState engineers P a).emitted = e0 :: erest := by
      rw [hkill]
      exact hKem
    have hcursorlt : ∀ pr ∈ b ++ S.flatten,
        (numsOf (P.flatten ++ a)).foldl max 0 < pr.number := by
      intro pr hpr
      refine foldl_max_lt _ 0 pr.number ?_ ?_
      · have h1 := hposBS pr hpr
        omega
      · intro y hy
        rcases List.mem_map.mp hy with ⟨q, hq, hqy⟩
        subst hqy
        exact hcross q hq pr hpr
    have hnumle : ∀ pr ∈ P.flatten ++ a,
        pr.number ≤ (numsOf (P.flatten ++ a)).foldl max 0 := by
      intro pr hpr
      exact foldl_max_mem_le _ 0 pr.number (List.mem_map_of_mem _ hpr)
    by_cases ha : a = []
    · subst ha
      by_cases hPe : P = []
      · exfalso
        subst hPe
        simp [mergedRosterNums] at hKem
      · -- a = [] and P ≠ []: the recorded page is the last processed page,
        -- which the resume re-fetches and skips entirely
        obtain ⟨P', plast, hPdec⟩ := (List.eq_nil_or_concat' P).resolve_left hPe
        have hPE : P.isEmpty = false := by
          rw [hPdec]
          cases P' <;> rfl
        have hplastne : plast ≠ [] := by
          refine hP plast ?_
          rw [hPdec]
          exact List.mem_append_right P' (List.mem_singleton_self plast)
        have hlenP : P.length = P'.length + 1 := by
          rw [hPdec]
          simp
        have hdrop : pagesFrom (P ++ ([] ++ b) :: S) P.length =
            plast :: ([] ++ b) :: S := by
          unfold pagesFrom
          rw [hlenP, show P'.length + 1 - 1 = P'.length from rfl, hPdec,
            List.append_assoc, List.drop_left]
          rfl
        simp only [List.isEmpty_nil, hPE, Bool.false_eq_true, if_true, if_false] at hH2
        rw [hdrop] at hH2
        have hsuffix2 : (P ++ ([] ++ b) :: S).flatten =
            P'.flatten ++ (plast :: ([] ++ b) :: S).flatten := by
          rw [hPdec]
          simp [List.flatten_append, List.flatten_cons, List.append_assoc]
        have hsortPg : List.Pairwise (fun x y : PR => x.number < y.number)
            (plast :: ([] ++ b) :: S).flatten :=
          (List.pairwise_append.mp (hsuffix2 ▸ hsorted)).2.1
        have htwoE : (runPages engineers (plast :: ([] ++ b) :: S) P.length
            { prog := { page := P.length,
                        pullNumber := (numsOf (P.flatten ++ [])).foldl max 0,
                        openPR := openRosterNums engineers (P.flatten ++ []) },
              emitted := [], saves := [] }).emitted =
            mergedRosterNums engineers (b ++ S.flatten) := by
          have h := runPages_mixed engineers (plast :: ([] ++ b) :: S) P.length
            { prog := { page := P.length,
                        pullNumber := (numsOf (P.flatten ++ [])).foldl max 0,
                        openPR := openRosterNums engineers (P.flatten ++ []) },
              emitted := [], saves := [] }
            plast (b ++ S.flatten) (by simp)
            (by
              intro pg hpg
              rcases List.mem_cons.mp hpg with h1 | h1
              · subst h1; exact hplastne
              · rcases List.mem_cons.mp h1 with h2 | h2
                · subst h2; exact hmid
                · exact hS pg h2)
            hsortPg
            (by
              intro pr hpr
              refine hnumle pr (List.mem_append_left [] ?_)
              rw [hPdec, List.flatten_append]
              refine List.mem_append_right _ ?_
              simp [hpr])
            (by
              intro pr hpr
              exact hcursorlt pr hpr)
          simpa using h
        refine ⟨runPages engineers (P ++ ([] ++ b) :: S) 1
            { prog := initProg, emitted := [], saves := [] },
          runPages engineers (plast :: ([] ++ b) :: S) P.length
            { prog := { page := P.length,
                        pullNumber := (numsOf (P.flatten ++ [])).foldl max 0,
                        openPR := openRosterNums engineers (P.flatten ++ []) },
              emitted := [], saves := [] },
          honeH, ?_, ?_, honeE, ?_⟩
        · rw [hkillprog, hkillem2]
          simp only [List.isEmpty_nil, hPE, Bool.false_eq_true, if_true, if_false]
          exact hH2
        · rw [hkillem2, htwoE, honeE]
          rw [← hKem, hflat]
          simp [mergedRosterNums_append, List.append_assoc]
        · rw [hkillem2, htwoE]
          rw [← hKem, ← mergedRosterNums_append, ← hflat]
          exact hpwAll
    · -- a ≠ []: resume re-fetches the kill page
      have haE : a.isEmpty = false := by
        cases a with
        | nil => exact absurd rfl ha
        | cons x xs => rfl
      have hdrop : pagesFrom (P ++ (a ++ b) :: S) (P.length + 1) = (a ++ b) :: S := by
        unfold pagesFrom
        rw [show P.length + 1 - 1 = P.length from rfl, List.drop_left]
      simp only [haE, Bool.false_eq_true, if_false] at hH2
      rw [hdrop] at hH2
      have hsuffix : (P ++ (a ++ b) :: S).flatten = P.flatten ++ ((a ++ b) :: S).flatten := by
        rw [List.flatten_append]
      have hsortPg : List.Pairwise (fun x y : PR => x.number < y.number)
          ((a ++ b) :: S).flatten :=
        (List.pairwise_append.mp (hsuffix ▸ hsorted)).2.1
      have htwoE : (runPages engineers ((a ++ b) :: S) (P.length + 1)
          { prog := { page := P.length + 1,
                      pullNumber := (numsOf (P.flatten ++ a)).foldl max 0,
                      openPR := openRosterNums engineers (P.flatten ++ a) },
            emitted := [], saves := [] }).emitted =
          mergedRosterNums engineers (b ++ S.flatten) := by
        have h := runPages_mixed engineers ((a ++ b) :: S) (P.length + 1)
          { prog := { page := P.length + 1,
                      pullNumber := (numsOf (P.flatten ++ a)).foldl max 0,
                      openPR := openRosterNums engineers (P.flatten ++ a) },
            emitted := [], saves := [] }
          a (b ++ S.flatten) (by simp)
          (by
            intro pg hpg
            rcases List.mem_cons.mp hpg with h1 | h1
            · subst h1; exact hmid
            · exact hS pg h1)
          hsortPg
          (by
            intro pr hpr
            exact hnumle pr (List.mem_append_right P.flatten hpr))
          (by
            intro pr hpr
            exact hcursorlt pr hpr)
        simpa using h
      refine ⟨runPages engineers (P ++ (a ++ b) :: S) 1
          { prog := initProg, emitted := [], saves := [] },
        runPages engineers ((a ++ b) :: S) (P.length + 1)
          { prog := { page := P.length + 1,
                      pullNumber := (numsOf (P.flatten ++ a)).foldl max 0,
                      openPR := openRosterNums engineers (P.flatten ++ a) },
            emitted := [], saves := [] },
        honeH, ?_, ?_, honeE, ?_⟩
      · rw [hkillprog, hkillem2]
        simp only [haE, Bool.false_eq_true, if_false]
        exact hH2
      · rw [hkillem2, htwoE, honeE]
        rw [← hKem, hflat]
        simp [mergedRosterNums_append, List.append_assoc]
      · rw [hkillem2, htwoE]
        rw [← hKem, ← mergedRosterNums_append, ← hflat]
        exact hpwAll

/-- Witness for C1 at a concrete run: merged pull 1 processed before the kill,
merged pull 2 after it; one-pass and two-pass runs both emit [1, 2]. -/
theorem resume_idempotence_witness :
    ("repo1" ∈ ["repo1"] : Prop) ∧
    (∃ sOne sTwo : ScanState,
      harvestRun ["al"] ["repo1"] ([] ++ ([{ number := 1, author := "al", closedAt := some "d", mergedAt := some "d" }] ++ []) :: [[{ number := 2, author := "al", closedAt := some "d", mergedAt := some "d" }]]) "repo1" [] [] = Except.ok sOne ∧
      harvestRun ["al"] ["repo1"] ([] ++ ([{ number := 1, author := "al", closedAt := some "d", mergedAt := some "d" }] ++ []) :: [[{ number := 2, author := "al", closedAt := some "d", mergedAt := some "d" }]]) "repo1"
          [("repo1", (killState ["al"] [] [{ number := 1, author := "al", closedAt := some "d", mergedAt := some "d" }]).prog)]
          (csvRowsOf "repo1" (killState ["al"] [] [{ number := 1, author := "al", closedAt := some "d", mergedAt := some "d" }]).emitted) = Except.ok sTwo ∧
      (killState ["al"] [] [{ number := 1, author := "al", closedAt := some "d", mergedAt := some "d" }]).emitted ++ sTwo.emitted = sOne.emitted ∧
      sOne.emitted = mergedRosterNums ["al"] (([] ++ ([{ number := 1, author := "al", closedAt := some "d", mergedAt := some "d" }] ++ []) :: [[{ number := 2, author := "al", closedAt := some "d", mergedAt := some "d" }]]) : List (List PR)).flatten ∧
      List.Pairwise (· < ·) ((killState ["al"] [] [{ number := 1, author := "al", closedAt := some "d", mergedAt := some "d" }]).emitted ++ sTwo.emitted)) :=
  ⟨by decide,
    resume_idempotence ["al"] ["repo1"] "repo1" [] ([[{ number := 2, author := "al", closedAt := some "d", mergedAt := some "d" }]] : List (List PR)) ([{ number := 1, author := "al", closedAt := some "d", mergedAt := some "d" }] : List PR) []
      (by decide) (by decide) (by decide) (by decide) (by decide) (by decide)⟩

end C3Metrics
